import Mathlib

/-!
# LoadBalance: the reactor of `loadBalance.cpp`

A shallow embedding of `LoadBalance::balance`, `LoadBalance::sendToServer`,
`LoadBalance::sendToClient` and `LoadBalance::freeConn`.

* File descriptors and the counters `m_curConn`, `m_maxConn` are C++ `int`s.
  They are embedded as `Int`; signed overflow is undefined behaviour in C++ and
  the development covers the executions in which no counter leaves the `int`
  range.
* The three `std::map` members are finite maps with unique keys (`FdMap`).
* `Host*` values are addresses into a heap of `Host` objects (`HostId`).
* Every answer of the outside world during the handling of one event (what
  `accept`, `selectServer`, `connectToServer`, `recv` and `send` return) is
  collected in an `Env` record; a call that the code does not reach does not
  consult its field.
* The system calls a handler makes are returned as a list of `Effect`s, in
  program order.
-/

namespace LoadBalancer

/-! ## Finite maps (`std::map<int, V>`) -/

/-- A `std::map<int, V>`: a list of key/value pairs; every operation below keeps
the keys pairwise distinct. -/
abbrev FdMap (V : Type) := List (Int × V)

namespace FdMap

variable {V : Type}

/-- Lookup without insertion (`find`). -/
def find? : FdMap V → Int → Option V
  | [], _ => none
  | (k, v) :: m, x => if x = k then some v else find? m x

/-- The member `erase(key)`. -/
def erase : FdMap V → Int → FdMap V
  | [], _ => []
  | (k, v) :: m, x => if x = k then erase m x else (k, v) :: erase m x

/-- The assignment `m[key] = value`. -/
def insert (m : FdMap V) (k : Int) (v : V) : FdMap V := (k, v) :: erase m k

/-- The member `count(key)`: 1 when the key is present, 0 otherwise. -/
def count (m : FdMap V) (k : Int) : Nat :=
  match find? m k with
  | some _ => 1
  | none => 0

/-- The map after an rvalue use of `m[key]`: an absent key is inserted with the
value-initialised element `dflt`. -/
def touch (m : FdMap V) (k : Int) (dflt : V) : FdMap V :=
  match find? m k with
  | some _ => m
  | none => insert m k dflt

/-- The member `size()`. -/
def size (m : FdMap V) : Nat := m.length

/-- The keys, in storage order. -/
def keys (m : FdMap V) : List Int := m.map Prod.fst

end FdMap

/-! ## Hosts -/

/-- The address of a `Host` object (`Host*`). -/
abbrev HostId := Nat

/-- Modelled from the spec: the class `Host` of `host.h`, which is not among
the sources. The spec gives it an address, a port, an immutable capacity, the
mutable counter activeCount and the health flag. -/
structure Host where
  hostName : String
  port : Int
  maxConn : Int
  busyRatio : Int
  healthy : Bool
deriving DecidableEq

namespace Host

/-- Modelled from the spec: `Host::getBusyRatio` of `host.h` reads activeCount. -/
def getBusyRatio (h : Host) : Int := h.busyRatio

/-- Modelled from the spec: `Host::getMaxConn` of `host.h` reads the capacity. -/
def getMaxConn (h : Host) : Int := h.maxConn

/-- Modelled from the spec: `Host::increaseBusyRatio` of `host.h` increments
activeCount. -/
def increaseBusyRatio (h : Host) : Host := { h with busyRatio := h.busyRatio + 1 }

/-- Modelled from the spec: `Host::decreaseBusyRatio` of `host.h` decrements
activeCount. -/
def decreaseBusyRatio (h : Host) : Host := { h with busyRatio := h.busyRatio - 1 }

end Host

/-! ## The outside world -/

/-- One byte of payload. -/
abbrev Byte := Fin 256

/-- The constant `BUFF_SIZE`. -/
def BUFF_SIZE : Int := 1024

/-- The `errno` value `EINTR` (Linux). -/
def EINTR : Int := 4

/-- The `errno` value `EAGAIN` (Linux). -/
def EAGAIN : Int := 11

/-- The `errno` value `EWOULDBLOCK` (Linux, equal to `EAGAIN`). -/
def EWOULDBLOCK : Int := 11

/-- Severity of a log line. -/
inductive LogLevel
  | err
  | debug
deriving DecidableEq

/-- What the handlers do to the outside world. -/
inductive Effect
  | accept
  | close (fd : Int)
  | selectServer
  | connectToServer (server : HostId)
  | addReadFd (fd : Int)
  | closeFd (fd : Int)
  | recv (fd : Int)
  | send (fd : Int) (data : List Byte)
  | log (level : LogLevel) (msg : String)
deriving DecidableEq

/-- One element of the array filled by `epoll_wait`: the descriptor and whether
`events & EPOLLIN` is non-zero. -/
structure EpollEvent where
  fd : Int
  epollin : Bool
deriving DecidableEq

/-- The answers of the outside world while one event is handled. -/
structure Env where
  /-- Result of `accept`. -/
  acceptRet : Int
  /-- Result of `m_algorithm->selectServer()`. -/
  selected : HostId
  /-- Result of `connectToServer`. -/
  connectRet : Int
  /-- Result of `recv`. -/
  recvRet : Int
  /-- Value of `errno` after `recv`. -/
  errno : Int
  /-- Contents of `BUFF` after `recv`. -/
  buff : List Byte
  /-- Result of `send`. -/
  sendRet : Int
deriving DecidableEq

/-! ## The reactor state -/

/-- The members of `LoadBalance`, the heap of `Host` objects its pointers refer
to, and the interest set of `m_epollFd`. -/
structure LoadBalance where
  m_listenFd : Int
  m_maxConn : Int
  m_curConn : Int
  m_cltToSrv : FdMap Int
  m_srvToClt : FdMap Int
  m_srvFdToSrv : FdMap HostId
  hosts : HostId → Host
  epollSet : List Int

/-- Modelled from the spec: `addReadFd` of `util.h`, which is not among the
sources; it registers the handle for read-readiness in the event set. -/
def addReadFd (lb : LoadBalance) (fd : Int) : LoadBalance :=
  { lb with epollSet := fd :: lb.epollSet }

/-- Modelled from the spec: `closeFd` of `util.h`, which is not among the
sources; it removes the handle from the event set and closes it. -/
def closeFd (lb : LoadBalance) (fd : Int) : LoadBalance :=
  { lb with epollSet := lb.epollSet.filter (fun x => decide (x ≠ fd)) }

/-- The constructor: no connection, empty maps, the listening handle in the
event set. -/
def LoadBalance.new (fd : Int) (hosts : HostId → Host) (maxConn : Int) : LoadBalance :=
  { m_listenFd := fd, m_maxConn := maxConn, m_curConn := 0,
    m_cltToSrv := [], m_srvToClt := [], m_srvFdToSrv := [],
    hosts := hosts, epollSet := [fd] }

/-- The method `freeConn`. The result is `none` when `m_srvFdToSrv[srvFd]` has no
entry: the code then dereferences the null pointer that `operator[]` inserts. -/
def freeConn (lb : LoadBalance) (cltFd srvFd : Int) : Option (LoadBalance × List Effect) :=
  let lb := closeFd lb cltFd
  let lb := closeFd lb srvFd
  let lb := { lb with m_cltToSrv := lb.m_cltToSrv.erase cltFd }
  let lb := { lb with m_srvToClt := lb.m_srvToClt.erase srvFd }
  match lb.m_srvFdToSrv.find? srvFd with
  | none => none
  | some server =>
    let lb := { lb with hosts := Function.update lb.hosts server (lb.hosts server).decreaseBusyRatio }
    some ({ lb with m_curConn := lb.m_curConn - 1 }, [Effect.closeFd cltFd, Effect.closeFd srvFd])

/-- Prefix an effect list to the result of a call. -/
def withEffects (pre : List Effect) : Option (LoadBalance × List Effect) → Option (LoadBalance × List Effect)
  | none => none
  | some (lb, effs) => some (lb, pre ++ effs)

/-- The method `sendToServer`. -/
def sendToServer (lb : LoadBalance) (sockFd : Int) (env : Env) : Option (LoadBalance × List Effect) :=
  let srvFd := (lb.m_cltToSrv.find? sockFd).getD 0
  let lb := { lb with m_cltToSrv := lb.m_cltToSrv.touch sockFd 0 }
  let bytesRead := env.recvRet
  if bytesRead = -1 then
    if env.errno = EAGAIN ∨ env.errno = EWOULDBLOCK then
      some (lb, [Effect.recv sockFd])
    else
      withEffects [Effect.recv sockFd, Effect.log LogLevel.err "Receive from client met error"]
        (freeConn lb sockFd srvFd)
  else if bytesRead = 0 then
    withEffects [Effect.recv sockFd] (freeConn lb sockFd srvFd)
  else if env.sendRet < 0 then
    withEffects [Effect.recv sockFd, Effect.send srvFd (env.buff.take bytesRead.toNat)]
      (freeConn lb sockFd srvFd)
  else
    some (lb, [Effect.recv sockFd, Effect.send srvFd (env.buff.take bytesRead.toNat)])

/-- The method `sendToClient`. -/
def sendToClient (lb : LoadBalance) (sockFd : Int) (env : Env) : Option (LoadBalance × List Effect) :=
  let cltFd := (lb.m_srvToClt.find? sockFd).getD 0
  let lb := { lb with m_srvToClt := lb.m_srvToClt.touch sockFd 0 }
  let bytesRead := env.recvRet
  if bytesRead = -1 then
    if env.errno = EAGAIN ∨ env.errno = EWOULDBLOCK then
      some (lb, [Effect.recv sockFd])
    else
      withEffects [Effect.recv sockFd, Effect.log LogLevel.err "Receive from server met error"]
        (freeConn lb cltFd sockFd)
  else if bytesRead = 0 then
    withEffects [Effect.recv sockFd] (freeConn lb cltFd sockFd)
  else if env.sendRet < 0 then
    withEffects [Effect.recv sockFd, Effect.send cltFd (env.buff.take bytesRead.toNat)]
      (freeConn lb cltFd sockFd)
  else
    some (lb, [Effect.recv sockFd, Effect.send cltFd (env.buff.take bytesRead.toNat)])

/-- The first branch of the loop body of `balance`: the listening handle is
readable ("get a new client request"). -/
def acceptClient (lb : LoadBalance) (env : Env) : LoadBalance × List Effect :=
  let cltFd := env.acceptRet
  if cltFd < 0 then
    (lb, [Effect.accept, Effect.log LogLevel.err "Accept client request fail"])
  else
    let lb := { lb with m_curConn := lb.m_curConn + 1 }
    if lb.m_curConn > lb.m_maxConn then
      ({ lb with m_curConn := lb.m_curConn - 1 },
        [Effect.accept,
         Effect.log LogLevel.debug "Max connection reached! The request from client refused!",
         Effect.close cltFd])
    else
      let server := env.selected
      if (lb.hosts server).getBusyRatio ≥ (lb.hosts server).getMaxConn then
        (lb, [Effect.accept, Effect.selectServer,
              Effect.log LogLevel.err "server has reached the maximum number of connections!"])
      else
        let srvFd := env.connectRet
        if srvFd < 0 then
          (lb, [Effect.accept, Effect.selectServer, Effect.connectToServer server,
                Effect.log LogLevel.err "Conncet to server fail!"])
        else
          let lb := { lb with hosts := Function.update lb.hosts server (lb.hosts server).increaseBusyRatio }
          let lb := addReadFd lb cltFd
          let lb := addReadFd lb srvFd
          let lb := { lb with m_cltToSrv := lb.m_cltToSrv.insert cltFd srvFd }
          let lb := { lb with m_srvToClt := lb.m_srvToClt.insert srvFd cltFd }
          let lb := { lb with m_srvFdToSrv := lb.m_srvFdToSrv.insert srvFd server }
          (lb, [Effect.accept, Effect.selectServer, Effect.connectToServer server,
                Effect.addReadFd cltFd, Effect.addReadFd srvFd])

/-- The body of the `for` loop of `balance`: the handling of one ready event. -/
def handleEvent (lb : LoadBalance) (ev : EpollEvent) (env : Env) : Option (LoadBalance × List Effect) :=
  if ev.fd = lb.m_listenFd ∧ ev.epollin = true then
    some (acceptClient lb env)
  else if lb.m_cltToSrv.count ev.fd > 0 ∧ ev.epollin = true then
    sendToServer lb ev.fd env
  else if lb.m_srvToClt.count ev.fd > 0 ∧ ev.epollin = true then
    sendToClient lb ev.fd env
  else
    some (lb, [])

/-! ## Reachable states -/

/-- A handle is registered when it is a key of one direction of the registry. -/
def Registered (lb : LoadBalance) (fd : Int) : Prop :=
  lb.m_cltToSrv.find? fd ≠ none ∨ lb.m_srvToClt.find? fd ≠ none

/-- The handles that `accept` and `connectToServer` return are not currently
registered. -/
def FreshHandles (lb : LoadBalance) (env : Env) : Prop :=
  ¬ Registered lb env.acceptRet ∧ ¬ Registered lb env.connectRet

/-- The states the reactor reaches from `lb0` by handling events one after the
other; for an event on the listening handle the outside world returns fresh
handles. -/
inductive Reachable (lb0 : LoadBalance) : LoadBalance → Prop
  | init : Reachable lb0 lb0
  | step (lb lb' : LoadBalance) (ev : EpollEvent) (env : Env) (effs : List Effect) :
      Reachable lb0 lb →
      (ev.fd = lb.m_listenFd → FreshHandles lb env) →
      handleEvent lb ev env = some (lb', effs) →
      Reachable lb0 lb'

/-- The registry is two-sided and every registered backend handle has an owner. -/
structure RegistryInv (lb : LoadBalance) : Prop where
  twoSided : ∀ c s, lb.m_cltToSrv.find? c = some s ↔ lb.m_srvToClt.find? s = some c
  owner : ∀ s c, lb.m_srvToClt.find? s = some c → ∃ h, lb.m_srvFdToSrv.find? s = some h

/-! ## Concrete states, step kinds and counting -/

/-- A pool in which every host has capacity 1 and no active connection. -/
def demoHosts : HostId → Host := fun _ => ⟨"10.0.0.1", 8080, 1, 0, true⟩

/-- Answers of the world: `accept` returns 5, the strategy host 0, the backend
connect 6; a read returns 0 bytes. -/
def envOk : Env :=
  { acceptRet := 5, selected := 0, connectRet := 6, recvRet := 0, errno := 0, buff := [],
    sendRet := 0 }

/-- The reactor for listening handle 3, `maxConnections = 2`. -/
def demo0 : LoadBalance := LoadBalance.new 3 demoHosts 2

/-- The state after the pairing (5, 6) has been admitted on host 0. -/
def demo1 : LoadBalance := (acceptClient demo0 envOk).1

/-- The state with two pairings, (5, 6) on host 0 and (7, 8) on host 1. -/
def demo2 : LoadBalance :=
  (acceptClient demo1 { envOk with acceptRet := 7, selected := 1, connectRet := 8 }).1

/-- The state after the pairing (c, s) has been admitted on host h. -/
def afterAdmission (lb : LoadBalance) (c s : Int) (h : HostId) : LoadBalance :=
  { lb with
      m_curConn := lb.m_curConn + 1,
      hosts := Function.update lb.hosts h (lb.hosts h).increaseBusyRatio,
      epollSet := s :: c :: lb.epollSet,
      m_cltToSrv := lb.m_cltToSrv.insert c s,
      m_srvToClt := lb.m_srvToClt.insert s c,
      m_srvFdToSrv := lb.m_srvFdToSrv.insert s h }

/-- The state after the pairing (c, s) owned by host o has been torn down. -/
def tornDown (lb : LoadBalance) (c s : Int) (o : HostId) : LoadBalance :=
  { lb with
      epollSet := (lb.epollSet.filter (fun x => decide (x ≠ c))).filter
        (fun x => decide (x ≠ s)),
      m_cltToSrv := lb.m_cltToSrv.erase c,
      m_srvToClt := lb.m_srvToClt.erase s,
      hosts := Function.update lb.hosts o (lb.hosts o).decreaseBusyRatio,
      m_curConn := lb.m_curConn - 1 }

/-- What the handling of one event can do to the state. -/
inductive Transition (lb : LoadBalance) : LoadBalance → Prop
  | idle : Transition lb lb
  | abort : lb.m_curConn + 1 ≤ lb.m_maxConn →
      Transition lb { lb with m_curConn := lb.m_curConn + 1 }
  | admission (c s : Int) (h : HostId) :
      lb.m_curConn + 1 ≤ lb.m_maxConn →
      (lb.hosts h).busyRatio < (lb.hosts h).maxConn →
      lb.m_cltToSrv.find? c = none → lb.m_srvToClt.find? s = none →
      Transition lb (afterAdmission lb c s h)
  | teardown (c s : Int) (o : HostId) :
      lb.m_cltToSrv.find? c = some s → lb.m_srvToClt.find? s = some c →
      lb.m_srvFdToSrv.find? s = some o →
      Transition lb (tornDown lb c s o)

/-- The number of registered pairings whose owner is host h. -/
def ownedBy (lb : LoadBalance) (h : HostId) : Nat :=
  (lb.m_srvToClt.filter (fun p => decide (lb.m_srvFdToSrv.find? p.1 = some h))).length

/-- The keys of the backend->client map are distinct and every host counter is
its initial value plus the number of pairings the host owns. -/
structure CountInv (base : HostId → Int) (lb : LoadBalance) : Prop where
  nodup : (lb.m_srvToClt.keys).Nodup
  count : ∀ h, (lb.hosts h).busyRatio = base h + ownedBy lb h

/-- The bytes that one `send` call hands over: `send` returns how many bytes of
the buffer it took, which can be fewer than it was given. -/
def delivered (data : List Byte) (sendRet : Int) : List Byte := data.take sendRet.toNat

/-- A chunk of 37 distinct bytes. -/
def chunk37 : List Byte := (List.range 37).map (fun i => Fin.ofNat i)

/-- Answers of the world for a read of the 37 bytes of `chunk37` followed by a
`send` that takes only the first 20 of them. -/
def envShortSend : Env :=
  { acceptRet := -1, selected := 0, connectRet := -1, recvRet := 37, errno := 0,
    buff := chunk37, sendRet := 20 }

/-- A pool whose host 1 has capacity 0; every other host has capacity 1. -/
def leakHosts : HostId → Host := fun h =>
  if h = 1 then ⟨"10.0.0.2", 8080, 0, 0, true⟩ else ⟨"10.0.0.1", 8080, 1, 0, true⟩

/-- The reactor for listening handle 3, `maxConnections = 2`, over `leakHosts`. -/
def leak0 : LoadBalance := LoadBalance.new 3 leakHosts 2

/-- Answers of the world: `accept` returns 5 and the strategy selects host 1,
which is at capacity. -/
def envHostFull : Env := { envOk with acceptRet := 5, selected := 1 }

/-- Answers of the world: `accept` returns 7, the strategy selects host 0 and
the backend connect fails. -/
def envConnFail : Env := { envOk with acceptRet := 7, selected := 0, connectRet := -1 }

/-- The state after the accept answered by `envHostFull`. -/
def leak1 : LoadBalance := (acceptClient leak0 envHostFull).1

/-- The state after a second accept, answered by `envConnFail`. -/
def leak2 : LoadBalance := (acceptClient leak1 envConnFail).1

/-- Both maps of the registry have distinct keys and the same size, and the
number of pairings is at most `m_curConn`, which is at most `m_maxConn`. -/
structure SizeInv (lb : LoadBalance) : Prop where
  nodupClt : (lb.m_cltToSrv.keys).Nodup
  nodupSrv : (lb.m_srvToClt.keys).Nodup
  sizes : lb.m_cltToSrv.size = lb.m_srvToClt.size
  lower : (lb.m_cltToSrv.size : Int) ≤ lb.m_curConn
  upper : lb.m_curConn ≤ lb.m_maxConn

/-- A handle that is a key of both directions of the registry is paired with
itself. -/
structure RoleInv (lb : LoadBalance) : Prop where
  both : ∀ x, lb.m_cltToSrv.find? x ≠ none → lb.m_srvToClt.find? x ≠ none →
    lb.m_cltToSrv.find? x = some x

/-- The states reached from `lb0` by handling events none of which admits a new
pairing: no event registers a handle with `addReadFd`. -/
inductive QuietRun (lb0 : LoadBalance) : LoadBalance → Prop
  | init : QuietRun lb0 lb0
  | step (lb lb' : LoadBalance) (ev : EpollEvent) (env : Env) (effs : List Effect) :
      QuietRun lb0 lb →
      handleEvent lb ev env = some (lb', effs) →
      (∀ fd, Effect.addReadFd fd ∉ effs) →
      QuietRun lb0 lb'

/-- One return of `epoll_wait`: its result `number`, the value of `errno`, the
contents of the array `events`, and with each event the answers of the world
while it is handled. -/
structure WaitResult where
  number : Int
  errno : Int
  events : List (EpollEvent × Env)

/-- The `for` loop of `balance`: the ready events are handled in order. -/
def handleEvents : LoadBalance → List (EpollEvent × Env) → Option (LoadBalance × List Effect)
  | lb, [] => some (lb, [])
  | lb, (ev, env) :: rest =>
    match handleEvent lb ev env with
    | none => none
    | some (lb', effs) => withEffects effs (handleEvents lb' rest)

/-- Where the `while` loop of `balance` stands once a finite script of
`epoll_wait` returns has been consumed: the state, the effects so far, and
whether the loop has been left by `break`. -/
structure LoopResult where
  lb : LoadBalance
  effects : List Effect
  exited : Bool

/-- The method `balance`, run against the successive returns of `epoll_wait`.
After `break` the rest of the script is not consumed. -/
def balance : LoadBalance → List WaitResult → Option LoopResult
  | lb, [] => some ⟨lb, [], false⟩
  | lb, w :: ws =>
    if w.number < 0 ∧ w.errno ≠ EINTR then
      some ⟨lb, [Effect.log LogLevel.err "epoll failure"], true⟩
    else
      match handleEvents lb (w.events.take w.number.toNat) with
      | none => none
      | some (lb', effs) =>
        match balance lb' ws with
        | none => none
        | some r => some { r with effects := effs ++ r.effects }

/-- Every accept of the batch returns handles that are fresh in the state in
which the event is handled. -/
def FreshBatch : LoadBalance → List (EpollEvent × Env) → Prop
  | _, [] => True
  | lb, (ev, env) :: rest =>
    (ev.fd = lb.m_listenFd → FreshHandles lb env) ∧
      ∀ lb' effs, handleEvent lb ev env = some (lb', effs) → FreshBatch lb' rest

/-- A wait interrupted by a signal. -/
def waitEintr : WaitResult := { number := -1, errno := EINTR, events := [] }

/-- A wait that fails with `EBADF` (9). -/
def waitFailure : WaitResult := { number := -1, errno := 9, events := [] }

/-- A wait that reports one event: the backend handle 6 is readable and its
read returns 0 bytes. -/
def waitBackendClosed : WaitResult :=
  { number := 1, errno := 0, events := [(⟨6, true⟩, envOk)] }

/-! ## Lemmas on finite maps -/

namespace FdMap

variable {V : Type}

theorem find?_erase (m : FdMap V) (k x : Int) :
    find? (erase m k) x = if x = k then none else find? m x := by
  induction m with
  | nil => simp [erase, find?]
  | cons p m ih =>
    obtain ⟨a, b⟩ := p
    by_cases hk : k = a
    · subst hk
      simp only [erase, if_true, ih, find?]
      by_cases hx : x = k <;> simp [hx]
    · simp only [erase, hk, if_false, find?, ih]
      by_cases hx : x = k
      · subst hx
        simp [hk]
      · simp [hx]

theorem find?_insert (m : FdMap V) (k : Int) (v : V) (x : Int) :
    find? (insert m k v) x = if x = k then some v else find? m x := by
  by_cases hx : x = k
  · simp [insert, find?, hx]
  · simp [insert, find?, hx, find?_erase]

theorem erase_of_find?_none (m : FdMap V) (k : Int) (h : find? m k = none) :
    erase m k = m := by
  induction m with
  | nil => rfl
  | cons p m ih =>
    obtain ⟨a, b⟩ := p
    by_cases hk : k = a
    · simp [find?, hk] at h
    · simp only [find?, hk, if_false] at h
      simp [erase, hk, ih h]

theorem touch_of_find?_some (m : FdMap V) (k : Int) (d v : V) (h : find? m k = some v) :
    touch m k d = m := by
  simp [touch, h]

theorem count_pos_iff (m : FdMap V) (k : Int) :
    count m k > 0 ↔ ∃ v, find? m k = some v := by
  unfold count
  cases h : find? m k <;> simp

end FdMap

/-! ## Preservation of the registry invariant -/

theorem inv_new (fd : Int) (hosts : HostId → Host) (maxConn : Int) :
    RegistryInv (LoadBalance.new fd hosts maxConn) := by
  constructor <;> simp [LoadBalance.new, FdMap.find?]

theorem freeConn_eq (lb : LoadBalance) (cltFd srvFd : Int) (server : HostId)
    (h : lb.m_srvFdToSrv.find? srvFd = some server) :
    freeConn lb cltFd srvFd =
      some ({ lb with
                epollSet := (lb.epollSet.filter (fun x => decide (x ≠ cltFd))).filter
                  (fun x => decide (x ≠ srvFd)),
                m_cltToSrv := lb.m_cltToSrv.erase cltFd,
                m_srvToClt := lb.m_srvToClt.erase srvFd,
                hosts := Function.update lb.hosts server (lb.hosts server).decreaseBusyRatio,
                m_curConn := lb.m_curConn - 1 },
            [Effect.closeFd cltFd, Effect.closeFd srvFd]) := by
  simp [freeConn, closeFd, h]

theorem inv_freeConn {lb lb' : LoadBalance} {c s : Int} {effs : List Effect}
    (inv : RegistryInv lb) (hcs : lb.m_cltToSrv.find? c = some s)
    (h : freeConn lb c s = some (lb', effs)) : RegistryInv lb' := by
  have hsc : lb.m_srvToClt.find? s = some c := (inv.twoSided c s).1 hcs
  obtain ⟨o, ho⟩ := inv.owner s c hsc
  rw [freeConn_eq lb c s o ho] at h
  simp only [Option.some.injEq, Prod.mk.injEq] at h
  obtain ⟨rfl, -⟩ := h
  constructor
  · intro c' s'
    simp only [FdMap.find?_erase]
    by_cases hc : c' = c
    · subst hc
      by_cases hs : s' = s
      · simp [hs]
      · simp only [if_true, hs, if_false]
        constructor
        · intro h2
          cases h2
        · intro h2
          have := (inv.twoSided c' s').2 h2
          rw [hcs] at this
          exact absurd (Option.some.inj this).symm hs
    · by_cases hs : s' = s
      · subst hs
        simp only [hc, if_false, if_true]
        constructor
        · intro h2
          have := (inv.twoSided c' s').1 h2
          rw [hsc] at this
          exact absurd (Option.some.inj this).symm hc
        · intro h2
          cases h2
      · simp only [hc, hs, if_false]
        exact inv.twoSided c' s'
  · intro s' c'
    simp only [FdMap.find?_erase]
    by_cases hs : s' = s
    · simp [hs]
    · simp only [hs, if_false]
      exact inv.owner s' c'

theorem inv_acceptClient {lb : LoadBalance} {env : Env}
    (inv : RegistryInv lb) (fresh : FreshHandles lb env) :
    RegistryInv (acceptClient lb env).1 := by
  obtain ⟨hc, hs⟩ := fresh
  simp only [Registered, not_or, not_not] at hc hs
  unfold acceptClient
  simp only [addReadFd]
  split_ifs
  · exact inv
  · exact ⟨inv.twoSided, inv.owner⟩
  · exact ⟨inv.twoSided, inv.owner⟩
  · exact ⟨inv.twoSided, inv.owner⟩
  · constructor
    · intro c' s'
      simp only [FdMap.find?_insert]
      by_cases hc' : c' = env.acceptRet
      · by_cases hs' : s' = env.connectRet
        · simp [hc', hs']
        · simp only [hc', if_true, Option.some.injEq, hs', if_false]
          constructor
          · intro h2
            exact absurd h2.symm hs'
          · intro h2
            have := (inv.twoSided env.acceptRet s').2 h2
            rw [hc.1] at this
            cases this
      · by_cases hs' : s' = env.connectRet
        · simp only [hc', hs', if_false, if_true, Option.some.injEq]
          constructor
          · intro h2
            have := (inv.twoSided c' env.connectRet).1 h2
            rw [hs.2] at this
            cases this
          · intro h2
            exact absurd h2.symm hc'
        · simp only [hc', hs', if_false]
          exact inv.twoSided c' s'
    · intro s' c'
      simp only [FdMap.find?_insert]
      by_cases hs' : s' = env.connectRet
      · simp [hs']
      · simp only [hs', if_false]
        exact inv.owner s' c'

theorem withEffects_eq_some {pre : List Effect} {r : Option (LoadBalance × List Effect)}
    {lb' : LoadBalance} {effs : List Effect} (h : withEffects pre r = some (lb', effs)) :
    ∃ effs', r = some (lb', effs') := by
  cases r with
  | none => simp [withEffects] at h
  | some p =>
    obtain ⟨a, b⟩ := p
    simp only [withEffects, Option.some.injEq, Prod.mk.injEq] at h
    exact ⟨b, by rw [h.1]⟩

theorem inv_sendToServer {lb lb' : LoadBalance} {c s : Int} {env : Env}
    {effs : List Effect} (inv : RegistryInv lb) (hcs : lb.m_cltToSrv.find? c = some s)
    (h : sendToServer lb c env = some (lb', effs)) : RegistryInv lb' := by
  unfold sendToServer at h
  simp only [hcs, Option.getD_some, FdMap.touch_of_find?_some _ _ _ _ hcs] at h
  split_ifs at h
  · simp only [Option.some.injEq, Prod.mk.injEq] at h
    rw [← h.1]; exact inv
  · obtain ⟨e, he⟩ := withEffects_eq_some h
    exact inv_freeConn inv hcs he
  · obtain ⟨e, he⟩ := withEffects_eq_some h
    exact inv_freeConn inv hcs he
  · obtain ⟨e, he⟩ := withEffects_eq_some h
    exact inv_freeConn inv hcs he
  · simp only [Option.some.injEq, Prod.mk.injEq] at h
    rw [← h.1]; exact inv

theorem inv_sendToClient {lb lb' : LoadBalance} {c s : Int} {env : Env}
    {effs : List Effect} (inv : RegistryInv lb) (hsc : lb.m_srvToClt.find? s = some c)
    (h : sendToClient lb s env = some (lb', effs)) : RegistryInv lb' := by
  have hcs : lb.m_cltToSrv.find? c = some s := (inv.twoSided c s).2 hsc
  unfold sendToClient at h
  simp only [hsc, Option.getD_some, FdMap.touch_of_find?_some _ _ _ _ hsc] at h
  split_ifs at h
  · simp only [Option.some.injEq, Prod.mk.injEq] at h
    rw [← h.1]; exact inv
  · obtain ⟨e, he⟩ := withEffects_eq_some h
    exact inv_freeConn inv hcs he
  · obtain ⟨e, he⟩ := withEffects_eq_some h
    exact inv_freeConn inv hcs he
  · obtain ⟨e, he⟩ := withEffects_eq_some h
    exact inv_freeConn inv hcs he
  · simp only [Option.some.injEq, Prod.mk.injEq] at h
    rw [← h.1]; exact inv

theorem inv_handleEvent {lb lb' : LoadBalance} {ev : EpollEvent} {env : Env}
    {effs : List Effect} (inv : RegistryInv lb)
    (fresh : ev.fd = lb.m_listenFd → FreshHandles lb env)
    (h : handleEvent lb ev env = some (lb', effs)) : RegistryInv lb' := by
  unfold handleEvent at h
  split_ifs at h with h1 h2 h3
  · simp only [Option.some.injEq] at h
    have := inv_acceptClient inv (fresh h1.1)
    rw [h] at this
    exact this
  · obtain ⟨s, hs⟩ := (FdMap.count_pos_iff _ _).1 h2.1
    exact inv_sendToServer inv hs h
  · obtain ⟨c, hc⟩ := (FdMap.count_pos_iff _ _).1 h3.1
    exact inv_sendToClient inv hc h
  · simp only [Option.some.injEq, Prod.mk.injEq] at h
    rw [← h.1]; exact inv

theorem inv_of_reachable {lb0 lb : LoadBalance} (inv0 : RegistryInv lb0)
    (h : Reachable lb0 lb) : RegistryInv lb := by
  induction h with
  | init => exact inv0
  | step lb lb' ev env effs _ fresh hstep ih => exact inv_handleEvent ih fresh hstep

theorem sendToServer_defined {lb : LoadBalance} (inv : RegistryInv lb) {c s : Int}
    (hcs : lb.m_cltToSrv.find? c = some s) (env : Env) :
    ∃ r, sendToServer lb c env = some r := by
  obtain ⟨o, ho⟩ := inv.owner s c ((inv.twoSided c s).1 hcs)
  have hf : freeConn { lb with m_cltToSrv := lb.m_cltToSrv } c s = _ := freeConn_eq lb c s o ho
  unfold sendToServer
  simp only [hcs, Option.getD_some, FdMap.touch_of_find?_some _ _ _ _ hcs, hf, withEffects]
  split_ifs <;> exact ⟨_, rfl⟩

theorem sendToClient_defined {lb : LoadBalance} (inv : RegistryInv lb) {c s : Int}
    (hsc : lb.m_srvToClt.find? s = some c) (env : Env) :
    ∃ r, sendToClient lb s env = some r := by
  obtain ⟨o, ho⟩ := inv.owner s c hsc
  have hf : freeConn { lb with m_srvToClt := lb.m_srvToClt } c s = _ := freeConn_eq lb c s o ho
  unfold sendToClient
  simp only [hsc, Option.getD_some, FdMap.touch_of_find?_some _ _ _ _ hsc, hf, withEffects]
  split_ifs <;> exact ⟨_, rfl⟩

/-- In a state with the registry invariant the handling of an event is defined. -/
theorem handleEvent_defined {lb : LoadBalance} (inv : RegistryInv lb)
    (ev : EpollEvent) (env : Env) : ∃ r, handleEvent lb ev env = some r := by
  unfold handleEvent
  split_ifs with h1 h2 h3
  · exact ⟨_, rfl⟩
  · obtain ⟨s, hs⟩ := (FdMap.count_pos_iff _ _).1 h2.1
    exact sendToServer_defined inv hs env
  · obtain ⟨c, hc⟩ := (FdMap.count_pos_iff _ _).1 h3.1
    exact sendToClient_defined inv hc env
  · exact ⟨_, rfl⟩

theorem demo1_reachable : Reachable demo0 demo1 := by
  refine Reachable.step demo0 demo1 ⟨3, true⟩ envOk (acceptClient demo0 envOk).2
    Reachable.init ?_ ?_
  · intro _
    simp [FreshHandles, Registered, demo0, LoadBalance.new, FdMap.find?]
  · rfl

/-! ## The registry is two-sided -/

/-- C1: in every state reachable from the empty registry, with `accept` and
`connectToServer` returning handles that are not registered, the client->backend
map sends c to s exactly when the backend->client map sends s to c, every such s
has an owner in the backend->owner map, and the handling of every further event
is defined (the owner lookup of `freeConn` never misses). -/
theorem registry_two_sided (fd : Int) (hosts : HostId → Host) (maxConn : Int)
    (lb : LoadBalance) (h : Reachable (LoadBalance.new fd hosts maxConn) lb) :
    (∀ c s, lb.m_cltToSrv.find? c = some s ↔ lb.m_srvToClt.find? s = some c) ∧
    (∀ c s, lb.m_cltToSrv.find? c = some s → ∃ o, lb.m_srvFdToSrv.find? s = some o) ∧
    (∀ ev env, ∃ r, handleEvent lb ev env = some r) := by
  have inv := inv_of_reachable (inv_new fd hosts maxConn) h
  refine ⟨inv.twoSided, ?_, handleEvent_defined inv⟩
  intro c s hcs
  exact inv.owner s c ((inv.twoSided c s).1 hcs)

/-- C1 at the state holding the pairing (5, 6). -/
theorem registry_two_sided_witness :
    (∀ c s, demo1.m_cltToSrv.find? c = some s ↔ demo1.m_srvToClt.find? s = some c) ∧
    (∀ c s, demo1.m_cltToSrv.find? c = some s → ∃ o, demo1.m_srvFdToSrv.find? s = some o) ∧
    (∀ ev env, ∃ r, handleEvent demo1 ev env = some r) :=
  registry_two_sided 3 demoHosts 2 demo1 demo1_reachable

/-! ## The admission slot on the abort paths -/

/-- C2: from the initial state (listening handle 3, `maxConnections = 2`), one
accept event whose backend connect fails is handled completely and leaves
`m_curConn = 1` while the registry holds no pairing. -/
theorem curConn_exceeds_pairings_after_abort :
    ∃ lb effs, handleEvent demo0 ⟨3, true⟩ { envOk with connectRet := -1 } = some (lb, effs) ∧
      Reachable demo0 lb ∧
      demo0.m_curConn = 0 ∧ demo0.m_cltToSrv.size = 0 ∧
      lb.m_curConn = 1 ∧ lb.m_cltToSrv.size = 0 ∧ lb.m_srvToClt.size = 0 := by
  refine ⟨(acceptClient demo0 { envOk with connectRet := -1 }).1,
    (acceptClient demo0 { envOk with connectRet := -1 }).2, rfl, ?_, by decide, by decide,
    by decide, by decide, by decide⟩
  refine Reachable.step demo0 _ ⟨3, true⟩ { envOk with connectRet := -1 } _ Reachable.init ?_ rfl
  intro _
  simp [FreshHandles, Registered, demo0, LoadBalance.new, FdMap.find?]

/-- C3: with the pairing (5, 6) on host 0 (capacity 1, activeCount 1) and
`m_curConn = 1 < 2`, an accept event for which the strategy returns host 0 aborts
without contacting a backend and without touching the registry or the hosts,
and leaves `m_curConn = 2`: the reserved slot is not released, and the accepted
handle 7 is not closed. -/
theorem host_full_abort_keeps_slot :
    demo1.m_curConn = 1 ∧ demo1.m_maxConn = 2 ∧
    (demo1.hosts 0).getBusyRatio ≥ (demo1.hosts 0).getMaxConn ∧
    ∃ lb effs, handleEvent demo1 ⟨3, true⟩ { envOk with acceptRet := 7, connectRet := 8 }
        = some (lb, effs) ∧
      lb.m_curConn = 2 ∧
      lb.m_cltToSrv = demo1.m_cltToSrv ∧ lb.m_srvToClt = demo1.m_srvToClt ∧
      lb.m_srvFdToSrv = demo1.m_srvFdToSrv ∧ lb.hosts = demo1.hosts ∧
      effs = [Effect.accept, Effect.selectServer,
        Effect.log LogLevel.err "server has reached the maximum number of connections!"] :=
  ⟨by decide, by decide, by decide, _, _, rfl, by decide, rfl, rfl, rfl, rfl, rfl⟩

/-- C4: with the pairing (5, 6) registered and `m_curConn = 1 < 2`, an accept
event for which the strategy returns host 1 (activeCount 0, capacity 1) and the
backend connect returns -1 leaves the registry and the hosts as they were but
`m_curConn = 2`: the reserved slot is not released, and the accepted handle 7
is not closed. -/
theorem connect_failure_keeps_slot :
    demo1.m_curConn = 1 ∧ demo1.m_maxConn = 2 ∧
    (demo1.hosts 1).getBusyRatio < (demo1.hosts 1).getMaxConn ∧
    ∃ lb effs, handleEvent demo1 ⟨3, true⟩
        { envOk with acceptRet := 7, selected := 1, connectRet := -1 } = some (lb, effs) ∧
      lb.m_curConn = 2 ∧
      lb.m_cltToSrv = demo1.m_cltToSrv ∧ lb.m_srvToClt = demo1.m_srvToClt ∧
      lb.m_srvFdToSrv = demo1.m_srvFdToSrv ∧ lb.hosts = demo1.hosts ∧
      effs = [Effect.accept, Effect.selectServer, Effect.connectToServer 1,
        Effect.log LogLevel.err "Conncet to server fail!"] :=
  ⟨by decide, by decide, by decide, _, _, rfl, by decide, rfl, rfl, rfl, rfl, rfl⟩

/-! ## Rejection by the global cap -/

/-- C5: when the listening handle is readable, `accept` succeeds and
`m_curConn` already equals `m_maxConn`, the event closes the accepted handle and
does nothing else: the strategy is not called, no backend connection is opened,
and the whole state (counter, registry, hosts, event set) is unchanged. -/
theorem global_cap_rejects (lb : LoadBalance) (ev : EpollEvent) (env : Env)
    (hfd : ev.fd = lb.m_listenFd) (hin : ev.epollin = true) (hacc : 0 ≤ env.acceptRet)
    (hfull : lb.m_curConn = lb.m_maxConn) :
    handleEvent lb ev env = some (lb,
      [Effect.accept,
       Effect.log LogLevel.debug "Max connection reached! The request from client refused!",
       Effect.close env.acceptRet]) := by
  have h1 : ¬ env.acceptRet < 0 := not_lt.mpr hacc
  have h2 : lb.m_curConn + 1 > lb.m_maxConn := by omega
  have h3 : lb.m_curConn + 1 - 1 = lb.m_curConn := by omega
  simp [handleEvent, acceptClient, hfd, hin, h1, h2, h3]

/-- C5 at scenario C: `maxConnections = 2`, two pairings registered, a third
connection (handle 9) is closed and `m_curConn` stays 2. -/
theorem global_cap_rejects_witness :
    demo2.m_curConn = 2 ∧ demo2.m_cltToSrv.size = 2 ∧
    handleEvent demo2 ⟨3, true⟩ { envOk with acceptRet := 9 } = some (demo2,
      [Effect.accept,
       Effect.log LogLevel.debug "Max connection reached! The request from client refused!",
       Effect.close 9]) :=
  ⟨by decide, by decide,
    global_cap_rejects demo2 ⟨3, true⟩ { envOk with acceptRet := 9 } rfl rfl (by decide)
      (by decide)⟩

/-! ## Successful admission -/

/-- C6: when the listening handle is readable, `accept` returns c, `m_curConn`
is below `m_maxConn`, the strategy returns a host h below its capacity and the
backend connect returns s (c and s not registered), the event is handled and
afterwards: the registry maps c to s, s to c and s to the owner h; the
activeCount of h and `m_curConn` are one higher; c and s are in the event set,
registered by `addReadFd`; the registry has exactly one more pairing, every
other key of the three maps resolves as before, and every other host is
unchanged (h itself keeps its capacity). -/
theorem admission_success (lb : LoadBalance) (ev : EpollEvent) (env : Env)
    (hfd : ev.fd = lb.m_listenFd) (hin : ev.epollin = true) (hacc : 0 ≤ env.acceptRet)
    (hroom : lb.m_curConn < lb.m_maxConn)
    (hcap : (lb.hosts env.selected).getBusyRatio < (lb.hosts env.selected).getMaxConn)
    (hconn : 0 ≤ env.connectRet)
    (hc : ¬ Registered lb env.acceptRet) (hs : ¬ Registered lb env.connectRet) :
    ∃ lb' effs, handleEvent lb ev env = some (lb', effs) ∧
      lb'.m_cltToSrv.find? env.acceptRet = some env.connectRet ∧
      lb'.m_srvToClt.find? env.connectRet = some env.acceptRet ∧
      lb'.m_srvFdToSrv.find? env.connectRet = some env.selected ∧
      (lb'.hosts env.selected).busyRatio = (lb.hosts env.selected).busyRatio + 1 ∧
      (lb'.hosts env.selected).maxConn = (lb.hosts env.selected).maxConn ∧
      lb'.m_curConn = lb.m_curConn + 1 ∧
      env.acceptRet ∈ lb'.epollSet ∧ env.connectRet ∈ lb'.epollSet ∧
      effs = [Effect.accept, Effect.selectServer, Effect.connectToServer env.selected,
        Effect.addReadFd env.acceptRet, Effect.addReadFd env.connectRet] ∧
      lb'.m_cltToSrv.size = lb.m_cltToSrv.size + 1 ∧
      lb'.m_srvToClt.size = lb.m_srvToClt.size + 1 ∧
      (∀ k, k ≠ env.acceptRet → lb'.m_cltToSrv.find? k = lb.m_cltToSrv.find? k) ∧
      (∀ k, k ≠ env.connectRet → lb'.m_srvToClt.find? k = lb.m_srvToClt.find? k) ∧
      (∀ k, k ≠ env.connectRet → lb'.m_srvFdToSrv.find? k = lb.m_srvFdToSrv.find? k) ∧
      (∀ h, h ≠ env.selected → lb'.hosts h = lb.hosts h) ∧
      (∀ x, x ∈ lb.epollSet → x ∈ lb'.epollSet) := by
  have h1 : ¬ env.acceptRet < 0 := not_lt.mpr hacc
  have h2 : ¬ lb.m_curConn + 1 > lb.m_maxConn := by omega
  have h3 : ¬ (lb.hosts env.selected).getBusyRatio ≥ (lb.hosts env.selected).getMaxConn :=
    not_le.mpr hcap
  have h4 : ¬ env.connectRet < 0 := not_lt.mpr hconn
  simp only [Registered, not_or, not_not] at hc hs
  refine ⟨(acceptClient lb env).1, (acceptClient lb env).2, ?_, ?_⟩
  · simp [handleEvent, hfd, hin]
  · simp only [acceptClient, h1, h2, h3, h4, if_false, addReadFd]
    refine ⟨?_, ?_, ?_, ?_, ?_, ?_, ?_, ?_, ?_, ?_, ?_, ?_, ?_, ?_, ?_, ?_⟩
    · simp [FdMap.find?_insert]
    · simp [FdMap.find?_insert]
    · simp [FdMap.find?_insert]
    · simp [Host.increaseBusyRatio]
    · simp [Host.increaseBusyRatio]
    · trivial
    · simp
    · simp
    · trivial
    · simp [FdMap.size, FdMap.insert, FdMap.erase_of_find?_none _ _ hc.1]
    · simp [FdMap.size, FdMap.insert, FdMap.erase_of_find?_none _ _ hs.2]
    · intro k hk
      simp [FdMap.find?_insert, hk]
    · intro k hk
      simp [FdMap.find?_insert, hk]
    · intro k hk
      simp [FdMap.find?_insert, hk]
    · intro h hh
      simp [Function.update_noteq hh]
    · intro x hx
      simp [hx]

/-- C6 at the first admission of the running example: pairing (5, 6) on host 0. -/
theorem admission_success_witness :
    ∃ lb' effs, handleEvent demo0 ⟨3, true⟩ envOk = some (lb', effs) ∧
      lb'.m_cltToSrv.find? 5 = some 6 ∧
      lb'.m_srvToClt.find? 6 = some 5 ∧
      lb'.m_srvFdToSrv.find? 6 = some 0 ∧
      (lb'.hosts 0).busyRatio = (demo0.hosts 0).busyRatio + 1 ∧
      (lb'.hosts 0).maxConn = (demo0.hosts 0).maxConn ∧
      lb'.m_curConn = demo0.m_curConn + 1 ∧
      5 ∈ lb'.epollSet ∧ 6 ∈ lb'.epollSet ∧
      effs = [Effect.accept, Effect.selectServer, Effect.connectToServer 0,
        Effect.addReadFd 5, Effect.addReadFd 6] ∧
      lb'.m_cltToSrv.size = demo0.m_cltToSrv.size + 1 ∧
      lb'.m_srvToClt.size = demo0.m_srvToClt.size + 1 ∧
      (∀ k, k ≠ 5 → lb'.m_cltToSrv.find? k = demo0.m_cltToSrv.find? k) ∧
      (∀ k, k ≠ 6 → lb'.m_srvToClt.find? k = demo0.m_srvToClt.find? k) ∧
      (∀ k, k ≠ 6 → lb'.m_srvFdToSrv.find? k = demo0.m_srvFdToSrv.find? k) ∧
      (∀ h, h ≠ 0 → lb'.hosts h = demo0.hosts h) ∧
      (∀ x, x ∈ demo0.epollSet → x ∈ lb'.epollSet) :=
  admission_success demo0 ⟨3, true⟩ envOk rfl rfl (by decide) (by decide) (by decide)
    (by decide) (by simp [Registered, demo0, LoadBalance.new, FdMap.find?])
    (by simp [Registered, demo0, LoadBalance.new, FdMap.find?])

/-! ## The three kinds of step -/

theorem freeConn_tornDown {lb lb' : LoadBalance} {c s : Int} {effs : List Effect}
    (inv : RegistryInv lb) (hcs : lb.m_cltToSrv.find? c = some s)
    (h : freeConn lb c s = some (lb', effs)) :
    ∃ o, lb.m_srvToClt.find? s = some c ∧ lb.m_srvFdToSrv.find? s = some o ∧
      lb' = tornDown lb c s o := by
  have hsc : lb.m_srvToClt.find? s = some c := (inv.twoSided c s).1 hcs
  obtain ⟨o, ho⟩ := inv.owner s c hsc
  rw [freeConn_eq lb c s o ho] at h
  simp only [Option.some.injEq, Prod.mk.injEq] at h
  exact ⟨o, hsc, ho, h.1.symm⟩

theorem acceptClient_transition (lb : LoadBalance) (env : Env) (fresh : FreshHandles lb env) :
    Transition lb (acceptClient lb env).1 := by
  obtain ⟨hc, hs⟩ := fresh
  simp only [Registered, not_or, not_not] at hc hs
  unfold acceptClient
  simp only [addReadFd]
  split_ifs with h1 h2 h3 h4
  · exact Transition.idle
  · have : lb.m_curConn + 1 - 1 = lb.m_curConn := by omega
    simp only [this]
    exact Transition.idle
  · exact Transition.abort (not_lt.mp h2)
  · exact Transition.abort (not_lt.mp h2)
  · exact Transition.admission env.acceptRet env.connectRet env.selected (not_lt.mp h2)
      (not_le.mp h3) hc.1 hs.2

/-- A readable client handle leaves the state as it is or tears its pairing
down. -/
theorem sendToServer_cases {lb lb' : LoadBalance} {c s : Int} {env : Env}
    {effs : List Effect} (inv : RegistryInv lb) (hcs : lb.m_cltToSrv.find? c = some s)
    (h : sendToServer lb c env = some (lb', effs)) :
    lb' = lb ∨ ∃ o, lb.m_srvToClt.find? s = some c ∧ lb.m_srvFdToSrv.find? s = some o ∧
      lb' = tornDown lb c s o := by
  unfold sendToServer at h
  simp only [hcs, Option.getD_some, FdMap.touch_of_find?_some _ _ _ _ hcs] at h
  split_ifs at h
  · simp only [Option.some.injEq, Prod.mk.injEq] at h
    exact Or.inl h.1.symm
  · obtain ⟨e, he⟩ := withEffects_eq_some h
    exact Or.inr (freeConn_tornDown inv hcs he)
  · obtain ⟨e, he⟩ := withEffects_eq_some h
    exact Or.inr (freeConn_tornDown inv hcs he)
  · obtain ⟨e, he⟩ := withEffects_eq_some h
    exact Or.inr (freeConn_tornDown inv hcs he)
  · simp only [Option.some.injEq, Prod.mk.injEq] at h
    exact Or.inl h.1.symm

/-- A readable backend handle leaves the state as it is or tears its pairing
down. -/
theorem sendToClient_cases {lb lb' : LoadBalance} {c s : Int} {env : Env}
    {effs : List Effect} (inv : RegistryInv lb) (hsc : lb.m_srvToClt.find? s = some c)
    (h : sendToClient lb s env = some (lb', effs)) :
    lb' = lb ∨ ∃ o, lb.m_cltToSrv.find? c = some s ∧ lb.m_srvFdToSrv.find? s = some o ∧
      lb' = tornDown lb c s o := by
  have hcs : lb.m_cltToSrv.find? c = some s := (inv.twoSided c s).2 hsc
  unfold sendToClient at h
  simp only [hsc, Option.getD_some, FdMap.touch_of_find?_some _ _ _ _ hsc] at h
  split_ifs at h
  · simp only [Option.some.injEq, Prod.mk.injEq] at h
    exact Or.inl h.1.symm
  · obtain ⟨e, he⟩ := withEffects_eq_some h
    obtain ⟨o, -, ho, hl⟩ := freeConn_tornDown inv hcs he
    exact Or.inr ⟨o, hcs, ho, hl⟩
  · obtain ⟨e, he⟩ := withEffects_eq_some h
    obtain ⟨o, -, ho, hl⟩ := freeConn_tornDown inv hcs he
    exact Or.inr ⟨o, hcs, ho, hl⟩
  · obtain ⟨e, he⟩ := withEffects_eq_some h
    obtain ⟨o, -, ho, hl⟩ := freeConn_tornDown inv hcs he
    exact Or.inr ⟨o, hcs, ho, hl⟩
  · simp only [Option.some.injEq, Prod.mk.injEq] at h
    exact Or.inl h.1.symm

/-- An event that is not a readable listening handle is idle or a teardown. -/
theorem relay_cases {lb lb' : LoadBalance} {ev : EpollEvent} {env : Env}
    {effs : List Effect} (inv : RegistryInv lb)
    (hne : ¬ (ev.fd = lb.m_listenFd ∧ ev.epollin = true))
    (h : handleEvent lb ev env = some (lb', effs)) :
    lb' = lb ∨ ∃ c s o, lb.m_cltToSrv.find? c = some s ∧ lb.m_srvToClt.find? s = some c ∧
      lb.m_srvFdToSrv.find? s = some o ∧ lb' = tornDown lb c s o := by
  unfold handleEvent at h
  simp only [hne, if_false] at h
  split_ifs at h with h2 h3
  · obtain ⟨s, hs⟩ := (FdMap.count_pos_iff _ _).1 h2.1
    rcases sendToServer_cases inv hs h with h' | ⟨o, h1, h2, h3⟩
    · exact Or.inl h'
    · exact Or.inr ⟨ev.fd, s, o, hs, h1, h2, h3⟩
  · obtain ⟨c, hc⟩ := (FdMap.count_pos_iff _ _).1 h3.1
    rcases sendToClient_cases inv hc h with h' | ⟨o, h1, h2, h3⟩
    · exact Or.inl h'
    · exact Or.inr ⟨c, ev.fd, o, h1, hc, h2, h3⟩
  · simp only [Option.some.injEq, Prod.mk.injEq] at h
    exact Or.inl h.1.symm

/-- Every handled event is an idle step, an aborted admission, an admission or
the teardown of one registered pairing. -/
theorem handleEvent_transition {lb lb' : LoadBalance} {ev : EpollEvent} {env : Env}
    {effs : List Effect} (inv : RegistryInv lb)
    (fresh : ev.fd = lb.m_listenFd → FreshHandles lb env)
    (h : handleEvent lb ev env = some (lb', effs)) : Transition lb lb' := by
  by_cases h1 : ev.fd = lb.m_listenFd ∧ ev.epollin = true
  · simp only [handleEvent, h1, and_self, if_true, Option.some.injEq] at h
    have := acceptClient_transition lb env (fresh h1.1)
    rw [h] at this
    exact this
  · rcases relay_cases inv h1 h with h' | ⟨c, s, o, hcs, hsc, ho, h'⟩
    · rw [h']; exact Transition.idle
    · rw [h']; exact Transition.teardown c s o hcs hsc ho

/-- A step changes no capacity, and raises an activeCount only by one and only
from a value strictly below the capacity. -/
theorem transition_busy {lb lb' : LoadBalance} (t : Transition lb lb') (h : HostId) :
    (lb'.hosts h).maxConn = (lb.hosts h).maxConn ∧
    ((lb'.hosts h).busyRatio ≤ (lb.hosts h).busyRatio ∨
      ((lb.hosts h).busyRatio < (lb.hosts h).maxConn ∧
        (lb'.hosts h).busyRatio = (lb.hosts h).busyRatio + 1)) := by
  cases t with
  | idle => exact ⟨rfl, Or.inl le_rfl⟩
  | abort _ => exact ⟨rfl, Or.inl le_rfl⟩
  | admission c s h0 _ hcap _ _ =>
    by_cases hh : h = h0
    · subst hh
      simp only [afterAdmission, Function.update_same, Host.increaseBusyRatio]
      exact ⟨trivial, Or.inr ⟨hcap, trivial⟩⟩
    · simp only [afterAdmission, Function.update_noteq hh]
      exact ⟨trivial, Or.inl le_rfl⟩
  | teardown c s o _ _ _ =>
    by_cases hh : h = o
    · subst hh
      simp only [tornDown, Function.update_same, Host.decreaseBusyRatio]
      exact ⟨trivial, Or.inl (by omega)⟩
    · simp only [tornDown, Function.update_noteq hh]
      exact ⟨trivial, Or.inl le_rfl⟩

/-! ## Per-host capacity -/

theorem tornDown_busy_le (lb : LoadBalance) (c s : Int) (o h : HostId) :
    ((tornDown lb c s o).hosts h).busyRatio ≤ (lb.hosts h).busyRatio := by
  by_cases hh : h = o
  · subst hh
    simp only [tornDown, Function.update_same, Host.decreaseBusyRatio]
    omega
  · simp only [tornDown, Function.update_noteq hh]
    exact le_rfl

theorem capacity_of_reachable {lb0 lb : LoadBalance} (inv0 : RegistryInv lb0)
    (hr : Reachable lb0 lb) (h : HostId)
    (h0 : (lb0.hosts h).busyRatio ≤ (lb0.hosts h).maxConn) :
    (lb.hosts h).maxConn = (lb0.hosts h).maxConn ∧
      (lb.hosts h).busyRatio ≤ (lb.hosts h).maxConn := by
  induction hr with
  | init => exact ⟨rfl, h0⟩
  | step lb lb' ev env effs hr fresh hstep ih =>
    have t := handleEvent_transition (inv_of_reachable inv0 hr) fresh hstep
    obtain ⟨hm, hb⟩ := transition_busy t h
    refine ⟨hm.trans ih.1, ?_⟩
    rcases hb with hb | ⟨hlt, heq⟩
    · rw [hm]; exact le_trans hb ih.2
    · rw [hm, heq]; omega

/-- C7: for a host with capacity at least 0 and initial activeCount 0, in every
reachable state the capacity is the initial one and activeCount is at most the
capacity; and whenever the handling of one event raises the activeCount, the
event is an accept on the listening handle, the count was strictly below the
capacity before it and is exactly one higher after it. -/
theorem activeCount_le_capacity (fd : Int) (hosts : HostId → Host) (maxConn : Int)
    (h : HostId) (hcap : 0 ≤ (hosts h).maxConn) (h0 : (hosts h).busyRatio = 0)
    (lb : LoadBalance) (hr : Reachable (LoadBalance.new fd hosts maxConn) lb) :
    (lb.hosts h).maxConn = (hosts h).maxConn ∧
    (lb.hosts h).busyRatio ≤ (lb.hosts h).maxConn ∧
    ∀ ev env lb' effs, (ev.fd = lb.m_listenFd → FreshHandles lb env) →
      handleEvent lb ev env = some (lb', effs) →
      (lb.hosts h).busyRatio < (lb'.hosts h).busyRatio →
      ev.fd = lb.m_listenFd ∧ ev.epollin = true ∧
        (lb.hosts h).busyRatio < (lb.hosts h).maxConn ∧
        (lb'.hosts h).busyRatio = (lb.hosts h).busyRatio + 1 := by
  have inv0 := inv_new fd hosts maxConn
  have inv := inv_of_reachable inv0 hr
  have hc := capacity_of_reachable inv0 hr h
    (by simp only [LoadBalance.new]; rw [h0]; exact hcap)
  refine ⟨hc.1, hc.2, ?_⟩
  intro ev env lb' effs fresh hstep hlt
  have t := handleEvent_transition inv fresh hstep
  rcases (transition_busy t h).2 with hb | ⟨hroom, heq⟩
  · omega
  · by_cases h1 : ev.fd = lb.m_listenFd ∧ ev.epollin = true
    · exact ⟨h1.1, h1.2, hroom, heq⟩
    · exfalso
      rcases relay_cases inv h1 hstep with h' | ⟨c, s, o, -, -, -, h'⟩
      · rw [h'] at hlt
        exact lt_irrefl _ hlt
      · have hle := tornDown_busy_le lb c s o h
        rw [h'] at hlt
        omega

/-- C7 at host 1 (capacity 1, no connection yet) of the running example, in the
state holding the pairing (5, 6) on host 0. -/
theorem activeCount_le_capacity_witness :
    (demo1.hosts 1).maxConn = (demoHosts 1).maxConn ∧
    (demo1.hosts 1).busyRatio ≤ (demo1.hosts 1).maxConn ∧
    ∀ ev env lb' effs, (ev.fd = demo1.m_listenFd → FreshHandles demo1 env) →
      handleEvent demo1 ev env = some (lb', effs) →
      (demo1.hosts 1).busyRatio < (lb'.hosts 1).busyRatio →
      ev.fd = demo1.m_listenFd ∧ ev.epollin = true ∧
        (demo1.hosts 1).busyRatio < (demo1.hosts 1).maxConn ∧
        (lb'.hosts 1).busyRatio = (demo1.hosts 1).busyRatio + 1 :=
  activeCount_le_capacity 3 demoHosts 2 1 (by decide) (by decide) demo1 demo1_reachable

/-! ## Teardown on a zero-length read -/

/-- C8: let (c, s) be a registered pairing owned by host h, and let a readable
event arrive on c or on s (a handle other than the listening one, s not being
registered as a client handle) whose read returns zero bytes. Handling that one
event closes c and s with `closeFd`, which removes them from the event set,
erases c from the client->backend map and s from the backend->client map,
lowers the activeCount of h by exactly 1 and lowers `m_curConn` by exactly 1;
no other key of the two maps and no other host changes. -/
theorem zero_read_teardown (lb : LoadBalance) (c s : Int) (h : HostId) (fd : Int) (env : Env)
    (hcs : lb.m_cltToSrv.find? c = some s) (hsc : lb.m_srvToClt.find? s = some c)
    (ho : lb.m_srvFdToSrv.find? s = some h)
    (hside : fd = c ∨ fd = s) (hlisten : fd ≠ lb.m_listenFd)
    (hbackend : lb.m_cltToSrv.find? s = none)
    (hzero : env.recvRet = 0) :
    ∃ lb', handleEvent lb ⟨fd, true⟩ env
        = some (lb', [Effect.recv fd, Effect.closeFd c, Effect.closeFd s]) ∧
      c ∉ lb'.epollSet ∧ s ∉ lb'.epollSet ∧
      lb'.m_cltToSrv.find? c = none ∧ lb'.m_srvToClt.find? s = none ∧
      (lb'.hosts h).busyRatio = (lb.hosts h).busyRatio - 1 ∧
      lb'.m_curConn = lb.m_curConn - 1 ∧
      (∀ k, k ≠ c → lb'.m_cltToSrv.find? k = lb.m_cltToSrv.find? k) ∧
      (∀ k, k ≠ s → lb'.m_srvToClt.find? k = lb.m_srvToClt.find? k) ∧
      (∀ h', h' ≠ h → lb'.hosts h' = lb.hosts h') := by
  refine ⟨tornDown lb c s h, ?_, ?_⟩
  · have hf : ∀ m1 m2, freeConn { lb with m_cltToSrv := m1, m_srvToClt := m2 } c s = _ :=
      fun m1 m2 => freeConn_eq { lb with m_cltToSrv := m1, m_srvToClt := m2 } c s h ho
    rcases hside with rfl | rfl
    · have hc1 : lb.m_cltToSrv.count fd > 0 := (FdMap.count_pos_iff _ _).2 ⟨s, hcs⟩
      simp only [handleEvent, hlisten, false_and, if_false, hc1, true_and, if_true, sendToServer,
        hcs, Option.getD_some, FdMap.touch_of_find?_some _ _ _ _ hcs, hzero, hf, withEffects,
        tornDown]
      simp
    · have hc0 : ¬ lb.m_cltToSrv.count fd > 0 := by
        rw [FdMap.count_pos_iff]
        rintro ⟨v, hv⟩
        rw [hbackend] at hv
        cases hv
      have hc1 : lb.m_srvToClt.count fd > 0 := (FdMap.count_pos_iff _ _).2 ⟨c, hsc⟩
      simp only [handleEvent, hlisten, false_and, if_false, hc0, hc1, true_and, if_true,
        sendToClient, hsc, Option.getD_some, FdMap.touch_of_find?_some _ _ _ _ hsc, hzero, hf,
        withEffects, tornDown]
      simp
  · simp only [tornDown, FdMap.find?_erase, Function.update_same, Host.decreaseBusyRatio,
      List.mem_filter]
    refine ⟨?_, ?_, ?_, ?_, ?_, ?_, ?_, ?_, ?_⟩
    · simp
    · simp
    · simp
    · simp
    · trivial
    · trivial
    · intro k hk
      simp [hk]
    · intro k hk
      simp [hk]
    · intro h' hh
      simp [Function.update_noteq hh]

/-- C8 at scenario B: the backend handle 6 of the pairing (5, 6) on host 0 reads
zero bytes. -/
theorem zero_read_teardown_witness :
    ∃ lb', handleEvent demo1 ⟨6, true⟩ envOk
        = some (lb', [Effect.recv 6, Effect.closeFd 5, Effect.closeFd 6]) ∧
      (5 : Int) ∉ lb'.epollSet ∧ (6 : Int) ∉ lb'.epollSet ∧
      lb'.m_cltToSrv.find? 5 = none ∧ lb'.m_srvToClt.find? 6 = none ∧
      (lb'.hosts 0).busyRatio = (demo1.hosts 0).busyRatio - 1 ∧
      lb'.m_curConn = demo1.m_curConn - 1 ∧
      (∀ k, k ≠ 5 → lb'.m_cltToSrv.find? k = demo1.m_cltToSrv.find? k) ∧
      (∀ k, k ≠ 6 → lb'.m_srvToClt.find? k = demo1.m_srvToClt.find? k) ∧
      (∀ h', h' ≠ 0 → lb'.hosts h' = demo1.hosts h') :=
  zero_read_teardown demo1 5 6 0 6 envOk (by decide) (by decide) (by decide) (Or.inr rfl)
    (by decide) (by decide) rfl

/-! ## Host counters and owned pairings -/

namespace FdMap

variable {V : Type}

theorem find?_eq_none_iff (m : FdMap V) (k : Int) :
    find? m k = none ↔ k ∉ keys m := by
  induction m with
  | nil => simp [find?, keys]
  | cons p m ih =>
    obtain ⟨a, b⟩ := p
    by_cases hk : k = a
    · simp [find?, keys, hk]
    · simp only [find?, hk, if_false, ih, keys, List.map_cons, List.mem_cons, false_or]

theorem keys_erase_subset (m : FdMap V) (k x : Int) (hx : x ∈ keys (erase m k)) :
    x ∈ keys m := by
  by_contra hn
  have h1 := (find?_eq_none_iff m x).2 hn
  have h2 : find? (erase m k) x = none := by
    rw [find?_erase, h1]; simp
  exact ((find?_eq_none_iff _ _).1 h2) hx

theorem nodup_erase (m : FdMap V) (k : Int) (h : (keys m).Nodup) :
    (keys (erase m k)).Nodup := by
  induction m with
  | nil => simp [erase, keys]
  | cons p m ih =>
    obtain ⟨a, b⟩ := p
    simp only [keys, List.map_cons, List.nodup_cons] at h
    by_cases hk : k = a
    · simp only [erase, hk, if_true]
      rw [← hk]; exact ih h.2
    · simp only [erase, hk, if_false, keys, List.map_cons, List.nodup_cons]
      exact ⟨fun hx => h.1 (keys_erase_subset m k a hx), ih h.2⟩

theorem nodup_insert (m : FdMap V) (k : Int) (v : V) (h : (keys m).Nodup) :
    (keys (insert m k v)).Nodup := by
  simp only [insert, keys, List.map_cons, List.nodup_cons]
  refine ⟨?_, nodup_erase m k h⟩
  have : find? (erase m k) k = none := by rw [find?_erase]; simp
  exact (find?_eq_none_iff _ _).1 this

/-- Erasing a present key of a map with distinct keys removes exactly the one
entry of that key. -/
theorem length_filter_erase (m : FdMap V) (k : Int) (v : V) (P : Int × V → Bool)
    (hn : (keys m).Nodup) (hk : find? m k = some v) :
    (m.filter P).length = ((erase m k).filter P).length + (if P (k, v) = true then 1 else 0) := by
  induction m with
  | nil => simp [find?] at hk
  | cons p m ih =>
    obtain ⟨a, b⟩ := p
    simp only [keys, List.map_cons, List.nodup_cons] at hn
    by_cases hka : k = a
    · subst hka
      simp only [find?, if_true, Option.some.injEq] at hk
      subst hk
      have hnone : find? m k = none := (find?_eq_none_iff m k).2 hn.1
      simp only [erase, if_true, erase_of_find?_none m k hnone, List.filter_cons]
      by_cases hp : P (k, b) = true <;> simp [hp]
    · simp only [find?, hka, if_false] at hk
      have := ih hn.2 hk
      simp only [erase, hka, if_false, List.filter_cons]
      by_cases hp : P (a, b) = true
      · simp only [hp, if_true, List.length_cons]
        omega
      · simp only [hp]
        exact this

end FdMap

theorem countInv_transition {base : HostId → Int} {lb lb' : LoadBalance}
    (ci : CountInv base lb) (t : Transition lb lb') : CountInv base lb' := by
  cases t with
  | idle => exact ci
  | abort _ => exact ⟨ci.nodup, ci.count⟩
  | admission c s h0 _ _ _ hs =>
    constructor
    · exact FdMap.nodup_insert _ _ _ ci.nodup
    · intro h
      have hfilter : (lb.m_srvToClt.filter
            (fun p => decide ((lb.m_srvFdToSrv.insert s h0).find? p.1 = some h)))
          = lb.m_srvToClt.filter (fun p => decide (lb.m_srvFdToSrv.find? p.1 = some h)) := by
        apply List.filter_congr
        intro p hp
        have hne : p.1 ≠ s := by
          intro he
          have : s ∈ FdMap.keys lb.m_srvToClt := by
            rw [← he]; exact List.mem_map_of_mem Prod.fst hp
          exact ((FdMap.find?_eq_none_iff _ _).1 hs) this
        simp [FdMap.find?_insert, hne]
      have hown : ownedBy (afterAdmission lb c s h0) h = ownedBy lb h + (if h0 = h then 1 else 0) := by
        have hd : decide (FdMap.find? ((s, h0) :: lb.m_srvFdToSrv.erase s) s = some h)
            = decide (h0 = h) := by
          simp [FdMap.find?]
        have hfilter2 := hfilter
        simp only [FdMap.insert] at hfilter2
        simp only [ownedBy, afterAdmission, FdMap.insert, FdMap.erase_of_find?_none _ _ hs,
          List.filter_cons]
        rw [hd, hfilter2]
        by_cases hh : h0 = h <;> simp [hh]
      have hb : ((afterAdmission lb c s h0).hosts h).busyRatio
          = (lb.hosts h).busyRatio + (if h0 = h then 1 else 0) := by
        by_cases hh : h0 = h
        · subst hh
          simp [afterAdmission, Host.increaseBusyRatio]
        · have hh2 : h ≠ h0 := fun e => hh e.symm
          simp [afterAdmission, Function.update_noteq hh2, hh]
      have hc := ci.count h
      rw [hb, hown, hc]
      by_cases hh : h0 = h <;> simp [hh]
      omega
  | teardown c s o _ hsc ho =>
    constructor
    · exact FdMap.nodup_erase _ _ ci.nodup
    · intro h
      have hlen := FdMap.length_filter_erase lb.m_srvToClt s c
        (fun p => decide (lb.m_srvFdToSrv.find? p.1 = some h)) ci.nodup hsc
      simp only [ho, Option.some.injEq, decide_eq_true_eq] at hlen
      have hown : ownedBy lb h = ownedBy (tornDown lb c s o) h + (if o = h then 1 else 0) := hlen
      have hb : ((tornDown lb c s o).hosts h).busyRatio
          = (lb.hosts h).busyRatio - (if o = h then 1 else 0) := by
        by_cases hh : o = h
        · subst hh
          simp [tornDown, Host.decreaseBusyRatio]
        · have hh2 : h ≠ o := fun e => hh e.symm
          simp [tornDown, Function.update_noteq hh2, hh]
      have hc := ci.count h
      rw [hb, hc, hown]
      by_cases hh : o = h <;> simp [hh]
      omega

theorem countInv_of_reachable {lb0 lb : LoadBalance} (inv0 : RegistryInv lb0)
    (ci0 : CountInv (fun h => (lb0.hosts h).busyRatio - ownedBy lb0 h) lb0)
    (hr : Reachable lb0 lb) :
    CountInv (fun h => (lb0.hosts h).busyRatio - ownedBy lb0 h) lb := by
  induction hr with
  | init => exact ci0
  | step lb lb' ev env effs hr fresh hstep ih =>
    exact countInv_transition ih
      (handleEvent_transition (inv_of_reachable inv0 hr) fresh hstep)

/-- C9: in every reachable state the backend->client map holds each registered
pairing once (its keys are distinct), and the activeCount of a host that
started at 0 equals the number of registered pairings whose owner is that
host. -/
theorem activeCount_eq_owned (fd : Int) (hosts : HostId → Host) (maxConn : Int)
    (h : HostId) (h0 : (hosts h).busyRatio = 0)
    (lb : LoadBalance) (hr : Reachable (LoadBalance.new fd hosts maxConn) lb) :
    (lb.m_srvToClt.keys).Nodup ∧ (lb.hosts h).busyRatio = ownedBy lb h := by
  have inv0 := inv_new fd hosts maxConn
  have ci0 : CountInv (fun h => ((LoadBalance.new fd hosts maxConn).hosts h).busyRatio
      - ownedBy (LoadBalance.new fd hosts maxConn) h) (LoadBalance.new fd hosts maxConn) := by
    constructor
    · simp [LoadBalance.new, FdMap.keys]
    · intro h; simp
  have ci := countInv_of_reachable inv0 ci0 hr
  refine ⟨ci.nodup, ?_⟩
  have := ci.count h
  have hb : ownedBy (LoadBalance.new fd hosts maxConn) h = 0 := rfl
  simp only [hb] at this
  simp only [LoadBalance.new, h0] at this
  rw [this]
  simp

/-- C9 at host 0 of the running example, which owns the pairing (5, 6). -/
theorem activeCount_eq_owned_witness :
    ((demo1.m_srvToClt.keys).Nodup ∧ (demo1.hosts 0).busyRatio = ownedBy demo1 0) ∧
      ownedBy demo1 0 = 1 :=
  ⟨activeCount_eq_owned 3 demoHosts 2 0 (by decide) demo1 demo1_reachable, by decide⟩

/-! ## Relay -/

/-- A read of n bytes (n at least 1) on a handle of a registered pairing, with a
`send` that does not return a negative value: the handler passes exactly the n
bytes that were read to one `send` on the peer and leaves the state as it is. -/
theorem forward_passes_chunk (lb : LoadBalance) (c s : Int) (fd : Int) (env : Env)
    (hcs : lb.m_cltToSrv.find? c = some s) (hsc : lb.m_srvToClt.find? s = some c)
    (hlisten : fd ≠ lb.m_listenFd) (hbackend : lb.m_cltToSrv.find? s = none)
    (hn : 1 ≤ env.recvRet) (hsend : 0 ≤ env.sendRet) :
    (fd = c → handleEvent lb ⟨fd, true⟩ env
      = some (lb, [Effect.recv c, Effect.send s (env.buff.take env.recvRet.toNat)])) ∧
    (fd = s → handleEvent lb ⟨fd, true⟩ env
      = some (lb, [Effect.recv s, Effect.send c (env.buff.take env.recvRet.toNat)])) := by
  have h1 : ¬ env.recvRet = -1 := by omega
  have h2 : ¬ env.recvRet = 0 := by omega
  have h3 : ¬ env.sendRet < 0 := not_lt.mpr hsend
  constructor
  · rintro rfl
    have hc1 : lb.m_cltToSrv.count fd > 0 := (FdMap.count_pos_iff _ _).2 ⟨s, hcs⟩
    simp [handleEvent, hlisten, hc1, sendToServer, hcs, FdMap.touch_of_find?_some _ _ _ _ hcs,
      h1, h2, h3]
  · rintro rfl
    have hc0 : ¬ lb.m_cltToSrv.count fd > 0 := by
      rw [FdMap.count_pos_iff]
      rintro ⟨v, hv⟩
      rw [hbackend] at hv
      cases hv
    have hc1 : lb.m_srvToClt.count fd > 0 := (FdMap.count_pos_iff _ _).2 ⟨c, hsc⟩
    simp only [handleEvent, hlisten, false_and, if_false, hc0, hc1, true_and, if_true,
      sendToClient, hsc, Option.getD_some, FdMap.touch_of_find?_some _ _ _ _ hsc, h1, h2, h3]

/-- C10: with the pairing (5, 6) registered, the client handle 5 is readable,
`recv` returns the 37 bytes of `chunk37` and `send` on the backend handle 6
returns 20. The handler passes all 37 bytes to `send`, treats the result as a
success (no teardown, state unchanged) and never looks at the count: only the
first 20 bytes are delivered, the other 17 are lost. -/
theorem short_send_loses_bytes :
    demo1.m_cltToSrv.find? 5 = some 6 ∧ demo1.m_srvToClt.find? 6 = some 5 ∧
    chunk37.length = 37 ∧
    handleEvent demo1 ⟨5, true⟩ envShortSend
      = some (demo1, [Effect.recv 5, Effect.send 6 chunk37]) ∧
    (delivered chunk37 envShortSend.sendRet).length = 20 ∧
    delivered chunk37 envShortSend.sendRet ≠ chunk37 := by
  refine ⟨by decide, by decide, by decide, ?_, by decide, by decide⟩
  exact (forward_passes_chunk demo1 5 6 5 envShortSend (by decide) (by decide) (by decide)
    (by decide) (by decide) (by decide)).1 rfl

/-! ## The owner map after a teardown -/

/-- C11: the pairing (5, 6) on host 0 is registered in a reachable state and the
backend handle 6 reads zero bytes. The teardown erases 5 from the
client->backend map and 6 from the backend->client map, but the backend->owner
map still sends 6 to host 0: in the state reached, 6 is a key of the owner map
and not a key of the backend->client map. -/
theorem owner_entry_survives_teardown :
    demo1.m_cltToSrv.find? 5 = some 6 ∧ demo1.m_srvToClt.find? 6 = some 5 ∧
    demo1.m_srvFdToSrv.find? 6 = some 0 ∧
    ∃ lb effs, handleEvent demo1 ⟨6, true⟩ envOk = some (lb, effs) ∧
      Reachable demo0 lb ∧
      effs = [Effect.recv 6, Effect.closeFd 5, Effect.closeFd 6] ∧
      lb.m_cltToSrv.find? 5 = none ∧ lb.m_srvToClt.find? 6 = none ∧
      lb.m_srvFdToSrv.find? 6 = some 0 ∧
      lb.m_srvFdToSrv.keys = [6] ∧ lb.m_srvToClt.keys = [] := by
  refine ⟨by decide, by decide, by decide, (tornDown demo1 5 6 0),
    [Effect.recv 6, Effect.closeFd 5, Effect.closeFd 6], rfl, ?_, rfl, by decide, by decide,
    by decide, by decide, by decide⟩
  refine Reachable.step demo1 _ ⟨6, true⟩ envOk _ demo1_reachable ?_ rfl
  intro h
  exact absurd h (by decide)

/-! ## Reads that would block -/

/-- C13: for a handle registered on either side (and other than the listening
handle), a readable event whose `recv` returns -1 with `errno` equal to
`EAGAIN` or `EWOULDBLOCK` does nothing but the read: no `send`, no close, and
the whole state (registry, hosts, `m_curConn`, event set) is unchanged. -/
theorem would_block_noop (lb : LoadBalance) (fd peer : Int) (env : Env)
    (hreg : lb.m_cltToSrv.find? fd = some peer ∨ lb.m_srvToClt.find? fd = some peer)
    (hlisten : fd ≠ lb.m_listenFd) (hret : env.recvRet = -1)
    (herr : env.errno = EAGAIN ∨ env.errno = EWOULDBLOCK) :
    handleEvent lb ⟨fd, true⟩ env = some (lb, [Effect.recv fd]) := by
  by_cases hc : lb.m_cltToSrv.count fd > 0
  · obtain ⟨s, hs⟩ := (FdMap.count_pos_iff _ _).1 hc
    simp [handleEvent, hlisten, hc, sendToServer, FdMap.touch_of_find?_some _ _ _ _ hs, hret,
      herr]
  · have hsrv : lb.m_srvToClt.find? fd = some peer := by
      rcases hreg with h | h
      · exact absurd ((FdMap.count_pos_iff _ _).2 ⟨peer, h⟩) hc
      · exact h
    have hc1 : lb.m_srvToClt.count fd > 0 := (FdMap.count_pos_iff _ _).2 ⟨peer, hsrv⟩
    simp [handleEvent, hlisten, hc, hc1, sendToClient,
      FdMap.touch_of_find?_some _ _ _ _ hsrv, hret, herr]

/-- C13 at the backend handle 6 of the pairing (5, 6), with `errno = EAGAIN`. -/
theorem would_block_noop_witness :
    handleEvent demo1 ⟨6, true⟩ { envOk with recvRet := -1, errno := EAGAIN }
      = some (demo1, [Effect.recv 6]) :=
  would_block_noop demo1 6 5 { envOk with recvRet := -1, errno := EAGAIN }
    (Or.inr (by decide)) (by decide) rfl (Or.inl rfl)

/-! ## Teardown on read and forward failures -/

/-- A readable event on a handle of the pairing (c, s) whose handler reaches
`freeConn` (read error other than would-block, zero-length read, or failed
`send`) yields the torn-down state and closes c and s, in that order, last. -/
theorem teardown_event (lb : LoadBalance) (c s : Int) (h : HostId) (fd : Int) (env : Env)
    (hcs : lb.m_cltToSrv.find? c = some s) (hsc : lb.m_srvToClt.find? s = some c)
    (ho : lb.m_srvFdToSrv.find? s = some h)
    (hside : fd = c ∨ fd = s) (hlisten : fd ≠ lb.m_listenFd)
    (hbackend : lb.m_cltToSrv.find? s = none)
    (hcall : (env.recvRet = -1 ∧ ¬ (env.errno = EAGAIN ∨ env.errno = EWOULDBLOCK)) ∨
      env.recvRet = 0 ∨ (env.recvRet ≠ -1 ∧ env.recvRet ≠ 0 ∧ env.sendRet < 0)) :
    ∃ pre, handleEvent lb ⟨fd, true⟩ env
        = some (tornDown lb c s h, pre ++ [Effect.closeFd c, Effect.closeFd s]) ∧
      ∀ x, Effect.closeFd x ∉ pre ∧ Effect.close x ∉ pre ∧ Effect.addReadFd x ∉ pre := by
  have hf : ∀ m1 m2, freeConn { lb with m_cltToSrv := m1, m_srvToClt := m2 } c s = _ :=
    fun m1 m2 => freeConn_eq { lb with m_cltToSrv := m1, m_srvToClt := m2 } c s h ho
  rcases hside with rfl | rfl
  · have hc1 : lb.m_cltToSrv.count fd > 0 := (FdMap.count_pos_iff _ _).2 ⟨s, hcs⟩
    rcases hcall with ⟨h1, h2⟩ | h1 | ⟨h1, h2, h3⟩
    · refine ⟨[Effect.recv fd, Effect.log LogLevel.err "Receive from client met error"], ?_, ?_⟩
      · simp only [handleEvent, hlisten, false_and, if_false, hc1, true_and, if_true,
          sendToServer, hcs, Option.getD_some, FdMap.touch_of_find?_some _ _ _ _ hcs, h1, h2, hf,
          withEffects, tornDown]
      · intro x; simp
    · refine ⟨[Effect.recv fd], ?_, ?_⟩
      · simp only [handleEvent, hlisten, false_and, if_false, hc1, true_and, if_true,
          sendToServer, hcs, Option.getD_some, FdMap.touch_of_find?_some _ _ _ _ hcs, h1, hf,
          withEffects, tornDown]
        simp
      · intro x; simp
    · refine ⟨[Effect.recv fd, Effect.send s (env.buff.take env.recvRet.toNat)], ?_, ?_⟩
      · simp only [handleEvent, hlisten, false_and, if_false, hc1, true_and, if_true,
          sendToServer, hcs, Option.getD_some, FdMap.touch_of_find?_some _ _ _ _ hcs, h1, h2, h3,
          hf, withEffects, tornDown]
      · intro x; simp
  · have hc0 : ¬ lb.m_cltToSrv.count fd > 0 := by
      rw [FdMap.count_pos_iff]
      rintro ⟨v, hv⟩
      rw [hbackend] at hv
      cases hv
    have hc1 : lb.m_srvToClt.count fd > 0 := (FdMap.count_pos_iff _ _).2 ⟨c, hsc⟩
    rcases hcall with ⟨h1, h2⟩ | h1 | ⟨h1, h2, h3⟩
    · refine ⟨[Effect.recv fd, Effect.log LogLevel.err "Receive from server met error"], ?_, ?_⟩
      · simp only [handleEvent, hlisten, false_and, if_false, hc0, hc1, true_and, if_true,
          sendToClient, hsc, Option.getD_some, FdMap.touch_of_find?_some _ _ _ _ hsc, h1, h2, hf,
          withEffects, tornDown]
      · intro x; simp
    · refine ⟨[Effect.recv fd], ?_, ?_⟩
      · simp only [handleEvent, hlisten, false_and, if_false, hc0, hc1, true_and, if_true,
          sendToClient, hsc, Option.getD_some, FdMap.touch_of_find?_some _ _ _ _ hsc, h1, hf,
          withEffects, tornDown]
        simp
      · intro x; simp
    · refine ⟨[Effect.recv fd, Effect.send c (env.buff.take env.recvRet.toNat)], ?_, ?_⟩
      · simp only [handleEvent, hlisten, false_and, if_false, hc0, hc1, true_and, if_true,
          sendToClient, hsc, Option.getD_some, FdMap.touch_of_find?_some _ _ _ _ hsc, h1, h2, h3,
          hf, withEffects, tornDown]
      · intro x; simp

/-- What the teardown of (c, s) owned by h changes and what it leaves alone. -/
theorem tornDown_frame (lb : LoadBalance) (c s : Int) (h : HostId) :
    c ∉ (tornDown lb c s h).epollSet ∧ s ∉ (tornDown lb c s h).epollSet ∧
    (tornDown lb c s h).m_cltToSrv.find? c = none ∧
    (tornDown lb c s h).m_srvToClt.find? s = none ∧
    ((tornDown lb c s h).hosts h).busyRatio = (lb.hosts h).busyRatio - 1 ∧
    (tornDown lb c s h).m_curConn = lb.m_curConn - 1 ∧
    (∀ k, k ≠ c → (tornDown lb c s h).m_cltToSrv.find? k = lb.m_cltToSrv.find? k) ∧
    (∀ k, k ≠ s → (tornDown lb c s h).m_srvToClt.find? k = lb.m_srvToClt.find? k) ∧
    (∀ h', h' ≠ h → (tornDown lb c s h).hosts h' = lb.hosts h') ∧
    (tornDown lb c s h).m_srvFdToSrv = lb.m_srvFdToSrv ∧
    (tornDown lb c s h).m_listenFd = lb.m_listenFd ∧
    (tornDown lb c s h).m_maxConn = lb.m_maxConn := by
  simp only [tornDown, FdMap.find?_erase, Function.update_same, Host.decreaseBusyRatio,
    List.mem_filter]
  refine ⟨?_, ?_, ?_, ?_, ?_, ?_, ?_, ?_, ?_, ?_, ?_, ?_⟩
  · simp
  · simp
  · simp
  · simp
  · trivial
  · trivial
  · intro k hk
    simp [hk]
  · intro k hk
    simp [hk]
  · intro h' hh
    simp [Function.update_noteq hh]
  · trivial
  · trivial
  · trivial

/-- C14: let (c, s) be a registered pairing owned by host h and let a readable
event arrive on c or on s (a handle other than the listening one, s not being
registered as a client handle). If `recv` fails with an error other than
would-block, or `recv` returns data and the `send` to the peer fails, the event
tears down exactly this pairing: c and s, and no other handle, are closed and
no handle is registered; c is erased from the client->backend map and s from
the backend->client map; the activeCount of h and `m_curConn` each drop by 1;
every other key of the two maps resolves as before, the backend->owner map is
unchanged, every other host is unchanged and h keeps its capacity, every other
handle stays in the event set exactly as before, and the listening handle and
`m_maxConn` are unchanged. -/
theorem failure_tears_down_one_pairing (lb : LoadBalance) (c s : Int) (h : HostId) (fd : Int)
    (env : Env)
    (hcs : lb.m_cltToSrv.find? c = some s) (hsc : lb.m_srvToClt.find? s = some c)
    (ho : lb.m_srvFdToSrv.find? s = some h)
    (hside : fd = c ∨ fd = s) (hlisten : fd ≠ lb.m_listenFd)
    (hbackend : lb.m_cltToSrv.find? s = none)
    (hfail : (env.recvRet = -1 ∧ ¬ (env.errno = EAGAIN ∨ env.errno = EWOULDBLOCK)) ∨
      (1 ≤ env.recvRet ∧ env.sendRet < 0)) :
    ∃ lb' effs, handleEvent lb ⟨fd, true⟩ env = some (lb', effs) ∧
      Effect.closeFd c ∈ effs ∧ Effect.closeFd s ∈ effs ∧
      (∀ x, Effect.closeFd x ∈ effs → x = c ∨ x = s) ∧
      (∀ x, Effect.close x ∉ effs) ∧
      c ∉ lb'.epollSet ∧ s ∉ lb'.epollSet ∧
      lb'.m_cltToSrv.find? c = none ∧ lb'.m_srvToClt.find? s = none ∧
      (lb'.hosts h).busyRatio = (lb.hosts h).busyRatio - 1 ∧
      lb'.m_curConn = lb.m_curConn - 1 ∧
      (∀ k, k ≠ c → lb'.m_cltToSrv.find? k = lb.m_cltToSrv.find? k) ∧
      (∀ k, k ≠ s → lb'.m_srvToClt.find? k = lb.m_srvToClt.find? k) ∧
      (∀ h', h' ≠ h → lb'.hosts h' = lb.hosts h') ∧
      lb'.m_srvFdToSrv = lb.m_srvFdToSrv ∧
      lb'.hosts h = (lb.hosts h).decreaseBusyRatio ∧
      (lb'.hosts h).maxConn = (lb.hosts h).maxConn ∧
      (∀ x, x ≠ c → x ≠ s → (x ∈ lb'.epollSet ↔ x ∈ lb.epollSet)) ∧
      lb'.m_listenFd = lb.m_listenFd ∧ lb'.m_maxConn = lb.m_maxConn ∧
      (∀ x, Effect.addReadFd x ∉ effs) := by
  have hcall : (env.recvRet = -1 ∧ ¬ (env.errno = EAGAIN ∨ env.errno = EWOULDBLOCK)) ∨
      env.recvRet = 0 ∨ (env.recvRet ≠ -1 ∧ env.recvRet ≠ 0 ∧ env.sendRet < 0) := by
    rcases hfail with h1 | ⟨h1, h2⟩
    · exact Or.inl h1
    · exact Or.inr (Or.inr ⟨by omega, by omega, h2⟩)
  obtain ⟨pre, hev, hpre⟩ := teardown_event lb c s h fd env hcs hsc ho hside hlisten hbackend hcall
  obtain ⟨f1, f2, f3, f4, f5, f6, f7, f8, f9, f10, f11, f12⟩ := tornDown_frame lb c s h
  refine ⟨_, _, hev, ?_, ?_, ?_, ?_, f1, f2, f3, f4, f5, f6, f7, f8, f9, f10, ?_, ?_, ?_,
    f11, f12, ?_⟩
  · simp
  · simp
  · intro x hx
    simp only [List.mem_append, List.mem_cons, Effect.closeFd.injEq, List.mem_nil_iff,
      or_false] at hx
    rcases hx with hx | hx
    · exact absurd hx (hpre x).1
    · exact hx
  · intro x hx
    simp only [List.mem_append, List.mem_cons, List.mem_nil_iff, or_false] at hx
    rcases hx with hx | hx | hx
    · exact absurd hx (hpre x).2.1
    · cases hx
    · cases hx
  · simp [tornDown]
  · simp [tornDown, Host.decreaseBusyRatio]
  · intro x hxc hxs
    simp [tornDown, List.mem_filter, hxc, hxs]
  · intro x hx
    simp only [List.mem_append, List.mem_cons, List.mem_nil_iff, or_false] at hx
    rcases hx with hx | hx | hx
    · exact absurd hx (hpre x).2.2
    · cases hx
    · cases hx

/-- C14 at the pairing (5, 6) of the state with two pairings: the client handle 5
reads 37 bytes and the `send` to 6 fails; the pairing (7, 8) stays. -/
theorem failure_tears_down_one_pairing_witness :
    (∃ lb' effs, handleEvent demo2 ⟨5, true⟩ { envShortSend with sendRet := -1 }
        = some (lb', effs) ∧
      Effect.closeFd 5 ∈ effs ∧ Effect.closeFd 6 ∈ effs ∧
      (∀ x, Effect.closeFd x ∈ effs → x = 5 ∨ x = 6) ∧
      (∀ x, Effect.close x ∉ effs) ∧
      (5 : Int) ∉ lb'.epollSet ∧ (6 : Int) ∉ lb'.epollSet ∧
      lb'.m_cltToSrv.find? 5 = none ∧ lb'.m_srvToClt.find? 6 = none ∧
      (lb'.hosts 0).busyRatio = (demo2.hosts 0).busyRatio - 1 ∧
      lb'.m_curConn = demo2.m_curConn - 1 ∧
      (∀ k, k ≠ 5 → lb'.m_cltToSrv.find? k = demo2.m_cltToSrv.find? k) ∧
      (∀ k, k ≠ 6 → lb'.m_srvToClt.find? k = demo2.m_srvToClt.find? k) ∧
      (∀ h', h' ≠ 0 → lb'.hosts h' = demo2.hosts h') ∧
      lb'.m_srvFdToSrv = demo2.m_srvFdToSrv ∧
      lb'.hosts 0 = (demo2.hosts 0).decreaseBusyRatio ∧
      (lb'.hosts 0).maxConn = (demo2.hosts 0).maxConn ∧
      (∀ x, x ≠ 5 → x ≠ 6 → (x ∈ lb'.epollSet ↔ x ∈ demo2.epollSet)) ∧
      lb'.m_listenFd = demo2.m_listenFd ∧ lb'.m_maxConn = demo2.m_maxConn ∧
      (∀ x, Effect.addReadFd x ∉ effs)) ∧
    demo2.m_cltToSrv.find? 7 = some 8 ∧ demo2.m_srvFdToSrv.find? 8 = some 1 :=
  ⟨failure_tears_down_one_pairing demo2 5 6 0 5 { envShortSend with sendRet := -1 }
    (by decide) (by decide) (by decide) (Or.inl rfl) (by decide) (by decide)
    (Or.inr ⟨by decide, by decide⟩), by decide, by decide⟩

/-! ## Handles and slots lost on the abort paths -/

/-- C17: with the pairing (5, 6) registered and `m_curConn = 1 < 2`, `accept`
returns the handle 7. When the strategy returns host 0, which is at capacity,
and also when it returns host 1 and the backend connect fails, the event ends
with 7 neither registered (not in the client->backend map, not in the event
set) nor closed (no `close` and no `closeFd` of 7 among the effects). -/
theorem aborted_accept_leaves_handle_open :
    (∃ lb effs, handleEvent demo1 ⟨3, true⟩ { envOk with acceptRet := 7, connectRet := 8 }
        = some (lb, effs) ∧
      lb.m_cltToSrv.find? 7 = none ∧ (7 : Int) ∉ lb.epollSet ∧
      Effect.close 7 ∉ effs ∧ Effect.closeFd 7 ∉ effs ∧ Effect.accept ∈ effs) ∧
    (∃ lb effs, handleEvent demo1 ⟨3, true⟩
        { envOk with acceptRet := 7, selected := 1, connectRet := -1 } = some (lb, effs) ∧
      lb.m_cltToSrv.find? 7 = none ∧ (7 : Int) ∉ lb.epollSet ∧
      Effect.close 7 ∉ effs ∧ Effect.closeFd 7 ∉ effs ∧ Effect.accept ∈ effs) :=
  ⟨⟨_, _, rfl, by decide, by decide, by decide, by decide, by decide⟩,
   ⟨_, _, rfl, by decide, by decide, by decide, by decide, by decide⟩⟩

/-- A reactor whose counter equals the cap and whose registry is empty stays in
that state whatever event it handles. -/
theorem full_and_empty_is_stuck (lb : LoadBalance) (hfull : lb.m_curConn = lb.m_maxConn)
    (hclt : lb.m_cltToSrv = []) (hsrv : lb.m_srvToClt = []) (ev : EpollEvent) (env : Env) :
    ∃ effs, handleEvent lb ev env = some (lb, effs) := by
  have h2 : lb.m_curConn + 1 > lb.m_maxConn := by omega
  have h3 : lb.m_curConn + 1 - 1 = lb.m_curConn := by omega
  have hc : lb.m_cltToSrv.count ev.fd = 0 := by rw [hclt]; rfl
  have hs : lb.m_srvToClt.count ev.fd = 0 := by rw [hsrv]; rfl
  unfold handleEvent
  split_ifs with h1
  · unfold acceptClient
    by_cases ha : env.acceptRet < 0
    · simp [ha]
    · simp [ha, h2, h3]
  · omega
  · omega
  · exact ⟨_, rfl⟩

/-- C18: with `maxConnections = 2`, two accept events abort, the first because
the selected host 1 is at capacity, the second because the backend connect
fails. The state reached has an empty registry and `m_curConn = 2`; in it every
accept that returns a handle is rejected by the global cap, whatever host the
strategy would select and whatever the backend connect would return, and every
sequence of further events leaves the reactor in this state. -/
theorem slot_leak_blocks_all_accepts :
    (1 : Int) ≤ leak0.m_maxConn ∧
    handleEvent leak0 ⟨3, true⟩ envHostFull = some (leak1,
      [Effect.accept, Effect.selectServer,
       Effect.log LogLevel.err "server has reached the maximum number of connections!"]) ∧
    handleEvent leak1 ⟨3, true⟩ envConnFail = some (leak2,
      [Effect.accept, Effect.selectServer, Effect.connectToServer 0,
       Effect.log LogLevel.err "Conncet to server fail!"]) ∧
    Reachable leak0 leak2 ∧
    leak2.m_cltToSrv = [] ∧ leak2.m_srvToClt = [] ∧ leak2.m_curConn = 2 ∧
    (∀ env : Env, 0 ≤ env.acceptRet →
      handleEvent leak2 ⟨3, true⟩ env = some (leak2,
        [Effect.accept,
         Effect.log LogLevel.debug "Max connection reached! The request from client refused!",
         Effect.close env.acceptRet])) ∧
    (∀ lb, Reachable leak2 lb → lb = leak2) := by
  have hfresh : ∀ lb : LoadBalance, lb.m_cltToSrv = [] → lb.m_srvToClt = [] →
      ∀ env, FreshHandles lb env := by
    intro lb h1 h2 env
    simp [FreshHandles, Registered, h1, h2, FdMap.find?]
  have r1 : Reachable leak0 leak1 :=
    Reachable.step leak0 leak1 ⟨3, true⟩ envHostFull _ Reachable.init
      (fun _ => hfresh leak0 rfl rfl _) rfl
  have r2 : Reachable leak0 leak2 :=
    Reachable.step leak1 leak2 ⟨3, true⟩ envConnFail _ r1 (fun _ => hfresh leak1 rfl rfl _) rfl
  refine ⟨by decide, rfl, rfl, r2, rfl, rfl, by decide, ?_, ?_⟩
  · intro env hacc
    have h1 : ¬ env.acceptRet < 0 := not_lt.mpr hacc
    have hl : leak2.m_listenFd = 3 := rfl
    have hcur : leak2.m_curConn = 2 := by decide
    have hmax : leak2.m_maxConn = 2 := by decide
    have h3 : leak2.m_curConn + 1 - 1 = leak2.m_curConn := by omega
    simp [handleEvent, acceptClient, hl, h1, hcur, hmax]
    rfl
  · intro lb hr
    induction hr with
    | init => rfl
    | step lb lb' ev env effs _ _ hstep ih =>
      subst ih
      obtain ⟨e, he⟩ := full_and_empty_is_stuck leak2 (by decide) rfl rfl ev env
      rw [he] at hstep
      simp only [Option.some.injEq, Prod.mk.injEq] at hstep
      exact hstep.1.symm

/-! ## The global counter bounds the registry -/

theorem FdMap.size_insert_of_none {V : Type} (m : FdMap V) (k : Int) (v : V)
    (h : FdMap.find? m k = none) : FdMap.size (FdMap.insert m k v) = FdMap.size m + 1 := by
  simp [FdMap.size, FdMap.insert, FdMap.erase_of_find?_none m k h]

theorem FdMap.size_erase_of_some {V : Type} (m : FdMap V) (k : Int) (v : V)
    (hn : (FdMap.keys m).Nodup) (h : FdMap.find? m k = some v) :
    FdMap.size (FdMap.erase m k) + 1 = FdMap.size m := by
  have := FdMap.length_filter_erase m k v (fun _ => true) hn h
  simp only [List.filter_true, if_true] at this
  simp only [FdMap.size]
  omega

theorem sizeInv_transition {lb lb' : LoadBalance} (si : SizeInv lb) (t : Transition lb lb') :
    SizeInv lb' ∧ lb'.m_maxConn = lb.m_maxConn := by
  cases t with
  | idle => exact ⟨si, rfl⟩
  | abort hroom =>
    refine ⟨⟨si.nodupClt, si.nodupSrv, si.sizes, ?_, hroom⟩, rfl⟩
    have := si.lower
    show (lb.m_cltToSrv.size : Int) ≤ lb.m_curConn + 1
    omega
  | admission c s h hroom _ hc hs =>
    refine ⟨⟨FdMap.nodup_insert _ _ _ si.nodupClt, FdMap.nodup_insert _ _ _ si.nodupSrv,
      ?_, ?_, hroom⟩, rfl⟩
    · show (lb.m_cltToSrv.insert c s).size = (lb.m_srvToClt.insert s c).size
      rw [FdMap.size_insert_of_none _ _ _ hc, FdMap.size_insert_of_none _ _ _ hs, si.sizes]
    · show ((lb.m_cltToSrv.insert c s).size : Int) ≤ lb.m_curConn + 1
      rw [FdMap.size_insert_of_none _ _ _ hc]
      have := si.lower
      push_cast
      omega
  | teardown c s o hcs hsc _ =>
    have e1 := FdMap.size_erase_of_some _ _ _ si.nodupClt hcs
    have e2 := FdMap.size_erase_of_some _ _ _ si.nodupSrv hsc
    have hl := si.lower
    have hu := si.upper
    have hz := si.sizes
    refine ⟨⟨FdMap.nodup_erase _ _ si.nodupClt, FdMap.nodup_erase _ _ si.nodupSrv,
      ?_, ?_, ?_⟩, rfl⟩
    · show (lb.m_cltToSrv.erase c).size = (lb.m_srvToClt.erase s).size
      omega
    · show ((lb.m_cltToSrv.erase c).size : Int) ≤ lb.m_curConn - 1
      omega
    · show lb.m_curConn - 1 ≤ lb.m_maxConn
      omega

theorem sizeInv_of_reachable {lb0 lb : LoadBalance} (inv0 : RegistryInv lb0)
    (si0 : SizeInv lb0) (hr : Reachable lb0 lb) :
    SizeInv lb ∧ lb.m_maxConn = lb0.m_maxConn := by
  induction hr with
  | init => exact ⟨si0, rfl⟩
  | step lb lb' ev env effs hr fresh hstep ih =>
    have t := handleEvent_transition (inv_of_reachable inv0 hr) fresh hstep
    obtain ⟨h1, h2⟩ := sizeInv_transition ih.1 t
    exact ⟨h1, h2.trans ih.2⟩

/-- C16: for `maxConnections` at least 0, in every state reachable from
`m_curConn = 0` and the empty registry, the number of registered pairings (the
size of either direction of the registry, whose keys are distinct) is at most
`m_curConn`, and `m_curConn` is at most `maxConnections`; so `m_curConn` is
never negative and the registry never holds more than `maxConnections`
pairings. -/
theorem pairings_le_curConn_le_max (fd : Int) (hosts : HostId → Host) (maxConn : Int)
    (hmax : 0 ≤ maxConn) (lb : LoadBalance)
    (hr : Reachable (LoadBalance.new fd hosts maxConn) lb) :
    (lb.m_cltToSrv.size : Int) ≤ lb.m_curConn ∧ lb.m_curConn ≤ lb.m_maxConn ∧
    lb.m_maxConn = maxConn ∧ 0 ≤ lb.m_curConn ∧ (lb.m_cltToSrv.size : Int) ≤ maxConn ∧
    lb.m_srvToClt.size = lb.m_cltToSrv.size ∧
    (lb.m_cltToSrv.keys).Nodup ∧ (lb.m_srvToClt.keys).Nodup := by
  have si0 : SizeInv (LoadBalance.new fd hosts maxConn) := by
    constructor
    · simp [LoadBalance.new, FdMap.keys]
    · simp [LoadBalance.new, FdMap.keys]
    · rfl
    · simp [LoadBalance.new, FdMap.size]
    · exact hmax
  obtain ⟨si, hm⟩ := sizeInv_of_reachable (inv_new fd hosts maxConn) si0 hr
  have hm' : lb.m_maxConn = maxConn := hm
  have hl := si.lower
  have hu := si.upper
  refine ⟨hl, hu, hm', ?_, ?_, si.sizes.symm, si.nodupClt, si.nodupSrv⟩
  · have : (0 : Int) ≤ (lb.m_cltToSrv.size : Int) := Int.ofNat_nonneg _
    omega
  · omega

/-- C16 at the state reached by the two aborted accepts: no pairing,
`m_curConn = 2 = maxConnections`. -/
theorem pairings_le_curConn_le_max_witness :
    ((leak2.m_cltToSrv.size : Int) ≤ leak2.m_curConn ∧ leak2.m_curConn ≤ leak2.m_maxConn ∧
    leak2.m_maxConn = 2 ∧ 0 ≤ leak2.m_curConn ∧ (leak2.m_cltToSrv.size : Int) ≤ 2 ∧
    leak2.m_srvToClt.size = leak2.m_cltToSrv.size ∧
    (leak2.m_cltToSrv.keys).Nodup ∧ (leak2.m_srvToClt.keys).Nodup) ∧
    leak2.m_cltToSrv.size = 0 ∧ leak2.m_curConn = 2 :=
  ⟨pairings_le_curConn_le_max 3 leakHosts 2 (by decide) leak2
    (Reachable.step leak1 leak2 ⟨3, true⟩ envConnFail _
      (Reachable.step leak0 leak1 ⟨3, true⟩ envHostFull _ Reachable.init
        (fun _ => by simp [FreshHandles, Registered, leak0, LoadBalance.new, FdMap.find?]) rfl)
      (fun _ => by
        have h1 : leak1.m_cltToSrv = [] := rfl
        have h2 : leak1.m_srvToClt = [] := rfl
        simp [FreshHandles, Registered, h1, h2, FdMap.find?]) rfl),
   by decide, by decide⟩

/-! ## Events on handles of a pairing that is gone -/

/-- The accept branch either changes `m_curConn` only, registering nothing, or
admits the pairing of the two returned handles. -/
theorem acceptClient_shape (lb : LoadBalance) (env : Env) :
    ((∃ k, (acceptClient lb env).1 = { lb with m_curConn := k }) ∧
        ∀ fd, Effect.addReadFd fd ∉ (acceptClient lb env).2) ∨
      ((acceptClient lb env).1 = afterAdmission lb env.acceptRet env.connectRet env.selected ∧
        Effect.addReadFd env.acceptRet ∈ (acceptClient lb env).2) := by
  unfold acceptClient
  simp only [addReadFd]
  split_ifs with h1 h2 h3 h4
  · exact Or.inl ⟨⟨lb.m_curConn, rfl⟩, by intro fd; simp⟩
  · exact Or.inl ⟨⟨lb.m_curConn + 1 - 1, rfl⟩, by intro fd; simp⟩
  · exact Or.inl ⟨⟨lb.m_curConn + 1, rfl⟩, by intro fd; simp⟩
  · exact Or.inl ⟨⟨lb.m_curConn + 1, rfl⟩, by intro fd; simp⟩
  · exact Or.inr ⟨rfl, by simp⟩

theorem inv_tornDown {lb : LoadBalance} (inv : RegistryInv lb) {c s : Int} {o : HostId}
    (hcs : lb.m_cltToSrv.find? c = some s) (ho : lb.m_srvFdToSrv.find? s = some o) :
    RegistryInv (tornDown lb c s o) :=
  inv_freeConn inv hcs (freeConn_eq lb c s o ho)

theorem roleInv_tornDown {lb : LoadBalance} (ri : RoleInv lb) (c s : Int) (o : HostId) :
    RoleInv (tornDown lb c s o) := by
  constructor
  intro x h1 h2
  simp only [tornDown, FdMap.find?_erase] at h1 h2 ⊢
  by_cases hc : x = c
  · simp [hc] at h1
  · by_cases hs : x = s
    · simp [hs] at h2
    · simp only [hc, hs, if_false] at h1 h2 ⊢
      exact ri.both x h1 h2

theorem roleInv_afterAdmission {lb : LoadBalance} (ri : RoleInv lb) (env : Env)
    (fresh : FreshHandles lb env) :
    RoleInv (afterAdmission lb env.acceptRet env.connectRet env.selected) := by
  obtain ⟨hc, hs⟩ := fresh
  simp only [Registered, not_or, not_not] at hc hs
  constructor
  intro x h1 h2
  simp only [afterAdmission, FdMap.find?_insert] at h1 h2 ⊢
  by_cases hxc : x = env.acceptRet
  · by_cases hxs : x = env.connectRet
    · simp only [hxc, if_true, Option.some.injEq]
      rw [← hxs, hxc]
    · simp only [hxs, if_false] at h2
      rw [hxc] at h2
      exact absurd hc.2 h2
  · simp only [hxc, if_false] at h1 ⊢
    by_cases hxs : x = env.connectRet
    · rw [hxs] at h1
      exact absurd hs.1 h1
    · simp only [hxs, if_false] at h2
      exact ri.both x h1 h2

theorem roleInv_handleEvent {lb lb' : LoadBalance} {ev : EpollEvent} {env : Env}
    {effs : List Effect} (inv : RegistryInv lb) (ri : RoleInv lb)
    (fresh : ev.fd = lb.m_listenFd → FreshHandles lb env)
    (h : handleEvent lb ev env = some (lb', effs)) : RoleInv lb' := by
  by_cases h1 : ev.fd = lb.m_listenFd ∧ ev.epollin = true
  · simp only [handleEvent, h1, and_self, if_true, Option.some.injEq] at h
    have hl : lb' = (acceptClient lb env).1 := by rw [h]
    rcases acceptClient_shape lb env with ⟨⟨k, hk⟩, -⟩ | ⟨hk, -⟩
    · rw [hl, hk]
      exact ⟨ri.both⟩
    · rw [hl, hk]
      exact roleInv_afterAdmission ri env (fresh h1.1)
  · rcases relay_cases inv h1 h with h' | ⟨c, s, o, -, -, -, h'⟩
    · rw [h']; exact ri
    · rw [h']; exact roleInv_tornDown ri c s o

theorem roleInv_of_reachable {lb0 lb : LoadBalance} (inv0 : RegistryInv lb0)
    (ri0 : RoleInv lb0) (hr : Reachable lb0 lb) : RoleInv lb := by
  induction hr with
  | init => exact ri0
  | step lb lb' ev env effs hr fresh hstep ih =>
    exact roleInv_handleEvent (inv_of_reachable inv0 hr) ih fresh hstep

/-- An event after which the registered client handle c is no longer a key of
the client->backend map has torn down the pairing of c. -/
theorem teardown_of_gone {lb lb1 : LoadBalance} {ev : EpollEvent} {env : Env}
    {effs : List Effect} (inv : RegistryInv lb) {c s : Int}
    (hcs : lb.m_cltToSrv.find? c = some s)
    (hstep : handleEvent lb ev env = some (lb1, effs))
    (hgone : lb1.m_cltToSrv.find? c = none) :
    ∃ o, lb.m_srvToClt.find? s = some c ∧ lb.m_srvFdToSrv.find? s = some o ∧
      lb1 = tornDown lb c s o := by
  by_cases h1 : ev.fd = lb.m_listenFd ∧ ev.epollin = true
  · exfalso
    simp only [handleEvent, h1, and_self, if_true, Option.some.injEq] at hstep
    have hl : lb1 = (acceptClient lb env).1 := by rw [hstep]
    rcases acceptClient_shape lb env with ⟨⟨k, hk⟩, -⟩ | ⟨hk, -⟩
    · rw [hl, hk] at hgone
      simp only [hcs] at hgone
      cases hgone
    · rw [hl, hk] at hgone
      simp only [afterAdmission, FdMap.find?_insert] at hgone
      by_cases hc : c = env.acceptRet
      · simp [hc] at hgone
      · simp only [hc, if_false, hcs] at hgone
        cases hgone
  · rcases relay_cases inv h1 hstep with h' | ⟨c', s', o, hcs', hsc', ho', h'⟩
    · rw [h', hcs] at hgone
      cases hgone
    · rw [h'] at hgone
      simp only [tornDown, FdMap.find?_erase] at hgone
      by_cases hc : c = c'
      · subst hc
        rw [hcs] at hcs'
        have hs : s = s' := Option.some.inj hcs'
        subst hs
        exact ⟨o, hsc', ho', h'⟩
      · simp only [hc, if_false, hcs] at hgone
        cases hgone

/-- A step that registers no handle keeps the registry invariant and the
listening handle, and makes no unregistered handle a key of either map. -/
theorem quiet_step {lb lb' : LoadBalance} {ev : EpollEvent} {env : Env}
    {effs : List Effect} (inv : RegistryInv lb)
    (h : handleEvent lb ev env = some (lb', effs))
    (hq : ∀ fd, Effect.addReadFd fd ∉ effs) :
    RegistryInv lb' ∧ lb'.m_listenFd = lb.m_listenFd ∧
      (∀ x, lb.m_cltToSrv.find? x = none → lb'.m_cltToSrv.find? x = none) ∧
      (∀ x, lb.m_srvToClt.find? x = none → lb'.m_srvToClt.find? x = none) := by
  by_cases h1 : ev.fd = lb.m_listenFd ∧ ev.epollin = true
  · simp only [handleEvent, h1, and_self, if_true, Option.some.injEq] at h
    have hl : lb' = (acceptClient lb env).1 := by rw [h]
    have he : effs = (acceptClient lb env).2 := by rw [h]
    rcases acceptClient_shape lb env with ⟨⟨k, hk⟩, -⟩ | ⟨-, hk⟩
    · rw [hl, hk]
      exact ⟨⟨inv.twoSided, inv.owner⟩, rfl, fun x hx => hx, fun x hx => hx⟩
    · rw [← he] at hk
      exact absurd hk (hq _)
  · rcases relay_cases inv h1 h with h' | ⟨c, s, o, hcs, -, ho, h'⟩
    · rw [h']
      exact ⟨inv, rfl, fun x hx => hx, fun x hx => hx⟩
    · rw [h']
      refine ⟨inv_tornDown inv hcs ho, rfl, ?_, ?_⟩
      · intro x hx
        simp only [tornDown, FdMap.find?_erase, hx, ite_self]
      · intro x hx
        simp only [tornDown, FdMap.find?_erase, hx, ite_self]

theorem quiet_run {lb1 lb2 : LoadBalance} (inv : RegistryInv lb1) (hq : QuietRun lb1 lb2) :
    RegistryInv lb2 ∧ lb2.m_listenFd = lb1.m_listenFd ∧
      (∀ x, lb1.m_cltToSrv.find? x = none → lb2.m_cltToSrv.find? x = none) ∧
      (∀ x, lb1.m_srvToClt.find? x = none → lb2.m_srvToClt.find? x = none) := by
  induction hq with
  | init => exact ⟨inv, rfl, fun x hx => hx, fun x hx => hx⟩
  | step lb lb' ev env effs _ hstep hquiet ih =>
    obtain ⟨i1, i2, i3, i4⟩ := ih
    obtain ⟨j1, j2, j3, j4⟩ := quiet_step i1 hstep hquiet
    exact ⟨j1, j2.trans i2, fun x hx => j3 x (i3 x hx), fun x hx => j4 x (i4 x hx)⟩

/-- After the teardown of (c, s) in a state with the registry and role
invariants, neither handle is a key of either map. -/
theorem tornDown_unregistered {lb : LoadBalance} (inv : RegistryInv lb) (ri : RoleInv lb)
    {c s : Int} (o : HostId) (hcs : lb.m_cltToSrv.find? c = some s) (x : Int)
    (hx : x = c ∨ x = s) :
    (tornDown lb c s o).m_cltToSrv.find? x = none ∧
      (tornDown lb c s o).m_srvToClt.find? x = none := by
  have hsc : lb.m_srvToClt.find? s = some c := (inv.twoSided c s).1 hcs
  simp only [tornDown, FdMap.find?_erase]
  by_cases hcs' : c = s
  · subst hcs'
    rcases hx with rfl | rfl <;> simp
  · rcases hx with rfl | rfl
    · refine ⟨by simp, ?_⟩
      simp only [hcs', if_false]
      by_contra hne
      have := ri.both x (by rw [hcs]; simp) hne
      rw [hcs] at this
      exact hcs' (Option.some.inj this).symm
    · refine ⟨?_, by simp⟩
      have hsc' : ¬ x = c := fun e => hcs' e.symm
      simp only [hsc', if_false]
      by_contra hne
      have h1 := ri.both x hne (by rw [hsc]; simp)
      have h2 := (inv.twoSided x x).1 h1
      rw [hsc] at h2
      exact hcs' (Option.some.inj h2)

/-- C12: in a reachable state let (c, s) be a registered pairing, and let the
handling of an event tear it down (afterwards c is no longer a key of the
client->backend map). After any further events that admit no pairing, an event
on c or on s (a handle other than the listening one) is ignored: the handler
does nothing at all, so it closes nothing and the registry, the hosts and
`m_curConn` are unchanged; c and s are keys of neither map. -/
theorem stale_event_ignored (fd : Int) (hosts : HostId → Host) (maxConn : Int)
    (lb lb1 lb2 : LoadBalance) (hr : Reachable (LoadBalance.new fd hosts maxConn) lb)
    (c s : Int) (hcs : lb.m_cltToSrv.find? c = some s)
    (ev0 : EpollEvent) (env0 : Env) (effs0 : List Effect)
    (htear : handleEvent lb ev0 env0 = some (lb1, effs0))
    (hgone : lb1.m_cltToSrv.find? c = none)
    (hquiet : QuietRun lb1 lb2)
    (ev : EpollEvent) (env : Env) (hside : ev.fd = c ∨ ev.fd = s)
    (hlisten : ev.fd ≠ lb.m_listenFd) :
    handleEvent lb2 ev env = some (lb2, []) ∧
      ¬ Registered lb2 c ∧ ¬ Registered lb2 s := by
  have inv0 := inv_new fd hosts maxConn
  have inv := inv_of_reachable inv0 hr
  have ri : RoleInv lb := roleInv_of_reachable inv0
    ⟨by intro x h; simp [LoadBalance.new, FdMap.find?] at h⟩ hr
  obtain ⟨o, -, ho, hl1⟩ := teardown_of_gone inv hcs htear hgone
  have inv1 : RegistryInv lb1 := by rw [hl1]; exact inv_tornDown inv hcs ho
  obtain ⟨-, hl, hclt, hsrv⟩ := quiet_run inv1 hquiet
  have hun : ∀ x, x = c ∨ x = s →
      lb2.m_cltToSrv.find? x = none ∧ lb2.m_srvToClt.find? x = none := by
    intro x hx
    have := tornDown_unregistered inv ri o hcs x hx
    rw [← hl1] at this
    exact ⟨hclt x this.1, hsrv x this.2⟩
  have hl2 : lb2.m_listenFd = lb.m_listenFd := by rw [hl, hl1]; rfl
  refine ⟨?_, ?_, ?_⟩
  · obtain ⟨u1, u2⟩ := hun ev.fd hside
    have hne : ev.fd ≠ lb2.m_listenFd := by rw [hl2]; exact hlisten
    simp [handleEvent, hne, FdMap.count, u1, u2]
  · obtain ⟨u1, u2⟩ := hun c (Or.inl rfl)
    simp [Registered, u1, u2]
  · obtain ⟨u1, u2⟩ := hun s (Or.inr rfl)
    simp [Registered, u1, u2]

/-- C12 in the running example: the backend handle 6 of the pairing (5, 6) reads
zero bytes, which tears the pairing down; a later event of the same batch on
the client handle 5 is ignored. -/
theorem stale_event_ignored_witness :
    handleEvent (tornDown demo1 5 6 0) ⟨5, true⟩ envOk = some (tornDown demo1 5 6 0, []) ∧
      ¬ Registered (tornDown demo1 5 6 0) 5 ∧ ¬ Registered (tornDown demo1 5 6 0) 6 :=
  stale_event_ignored 3 demoHosts 2 demo1 (tornDown demo1 5 6 0) (tornDown demo1 5 6 0)
    demo1_reachable 5 6 (by decide) ⟨6, true⟩ envOk
    [Effect.recv 6, Effect.closeFd 5, Effect.closeFd 6] rfl (by decide) QuietRun.init
    ⟨5, true⟩ envOk (Or.inl rfl) (by decide)

/-! ## The main loop -/

theorem handleEvents_defined {lb0 lb : LoadBalance} (inv0 : RegistryInv lb0)
    (hr : Reachable lb0 lb) (evs : List (EpollEvent × Env)) (fresh : FreshBatch lb evs) :
    ∃ lb' effs, handleEvents lb evs = some (lb', effs) ∧ Reachable lb0 lb' := by
  induction evs generalizing lb with
  | nil => exact ⟨lb, [], rfl, hr⟩
  | cons p rest ih =>
    obtain ⟨ev, env⟩ := p
    obtain ⟨hf, hrest⟩ := fresh
    obtain ⟨⟨lb1, effs1⟩, h1⟩ := handleEvent_defined (inv_of_reachable inv0 hr) ev env
    have hr1 : Reachable lb0 lb1 := Reachable.step lb lb1 ev env effs1 hr hf h1
    obtain ⟨lb2, effs2, h2, hr2⟩ := ih hr1 (hrest lb1 effs1 h1)
    exact ⟨lb2, effs1 ++ effs2, by simp [handleEvents, h1, h2, withEffects], hr2⟩

/-- The loop is left only by a wait that fails with an error other than
`EINTR`. -/
theorem balance_running (script : List WaitResult) :
    ∀ (lb : LoadBalance) (r : LoopResult),
      (∀ w ∈ script, 0 ≤ w.number ∨ w.errno = EINTR) →
      balance lb script = some r → r.exited = false := by
  induction script with
  | nil =>
    intro lb r _ h
    simp only [balance, Option.some.injEq] at h
    rw [← h]
  | cons w ws ih =>
    intro lb r hall h
    have hw : ¬ (w.number < 0 ∧ w.errno ≠ EINTR) := by
      rcases hall w (List.mem_cons_self _ _) with h1 | h1
      · exact fun hh => absurd hh.1 (not_lt.mpr h1)
      · exact fun hh => hh.2 h1
    simp only [balance, hw, if_false] at h
    cases h1 : handleEvents lb (w.events.take w.number.toNat) with
    | none => simp [h1] at h
    | some p =>
      obtain ⟨lb', effs⟩ := p
      simp only [h1] at h
      cases h2 : balance lb' ws with
      | none => simp [h2] at h
      | some r' =>
        simp only [h2, Option.some.injEq] at h
        rw [← h]
        exact ih lb' r' (fun w' hw' => hall w' (List.mem_cons_of_mem _ hw')) h2

/-- C15: in the loop of `balance`, started in a reachable state, (1) a wait that
fails with `EINTR` handles no event, logs nothing and the loop goes on with the
next wait in the same state; (2) a wait that fails with any other error leaves
the loop at once with the single log line "epoll failure", whatever waits would
have followed; (3) a wait that does not fail handles its ready events (the
handling is defined when the accepts of the batch return fresh handles) and
the loop is then still running, going on with the next wait; (4) a script in
which no wait fails with an error other than `EINTR` never leaves the loop. -/
theorem wait_outcomes (fd : Int) (hosts : HostId → Host) (maxConn : Int)
    (lb : LoadBalance) (hr : Reachable (LoadBalance.new fd hosts maxConn) lb)
    (w : WaitResult) (ws : List WaitResult) :
    (w.number < 0 → w.errno = EINTR → balance lb (w :: ws) = balance lb ws) ∧
    (w.number < 0 → w.errno ≠ EINTR →
      balance lb (w :: ws) = some ⟨lb, [Effect.log LogLevel.err "epoll failure"], true⟩) ∧
    (0 ≤ w.number → FreshBatch lb (w.events.take w.number.toNat) →
      ∃ lb' effs, handleEvents lb (w.events.take w.number.toNat) = some (lb', effs) ∧
        Reachable (LoadBalance.new fd hosts maxConn) lb' ∧
        balance lb [w] = some ⟨lb', effs, false⟩ ∧
        balance lb (w :: ws)
          = (balance lb' ws).map (fun r => { r with effects := effs ++ r.effects })) ∧
    (∀ script r, (∀ w' ∈ script, 0 ≤ w'.number ∨ w'.errno = EINTR) →
      balance lb script = some r → r.exited = false) := by
  refine ⟨?_, ?_, ?_, fun script r => balance_running script lb r⟩
  · intro hneg herr
    have h0 : w.number.toNat = 0 := by omega
    have hw : ¬ (w.number < 0 ∧ w.errno ≠ EINTR) := fun hh => hh.2 herr
    simp only [balance, hw, if_false, h0, List.take_zero, handleEvents, List.nil_append]
    cases balance lb ws <;> rfl
  · intro hneg herr
    simp [balance, hneg, herr]
  · intro hpos fresh
    obtain ⟨lb', effs, h1, hr'⟩ :=
      handleEvents_defined (inv_new fd hosts maxConn) hr _ fresh
    have hw : ¬ (w.number < 0 ∧ w.errno ≠ EINTR) := fun hh => absurd hh.1 (not_lt.mpr hpos)
    refine ⟨lb', effs, h1, hr', ?_, ?_⟩
    · simp [balance, hw, h1]
    · simp only [balance, hw, if_false, h1]
      cases balance lb' ws <;> rfl

/-- C15 at scenario E: in the state holding the pairing (5, 6), a wait
interrupted by a signal is followed by a wait that fails with `EBADF`; the loop
skips the first and is left by the second with one log line. -/
theorem wait_outcomes_witness :
    ((waitEintr.number < 0 → waitEintr.errno = EINTR →
        balance demo1 (waitEintr :: [waitFailure]) = balance demo1 [waitFailure]) ∧
    (waitEintr.number < 0 → waitEintr.errno ≠ EINTR →
      balance demo1 (waitEintr :: [waitFailure])
        = some ⟨demo1, [Effect.log LogLevel.err "epoll failure"], true⟩) ∧
    (0 ≤ waitEintr.number → FreshBatch demo1 (waitEintr.events.take waitEintr.number.toNat) →
      ∃ lb' effs, handleEvents demo1 (waitEintr.events.take waitEintr.number.toNat)
          = some (lb', effs) ∧
        Reachable (LoadBalance.new 3 demoHosts 2) lb' ∧
        balance demo1 [waitEintr] = some ⟨lb', effs, false⟩ ∧
        balance demo1 (waitEintr :: [waitFailure])
          = (balance lb' [waitFailure]).map
              (fun r => { r with effects := effs ++ r.effects })) ∧
    (∀ script r, (∀ w' ∈ script, 0 ≤ w'.number ∨ w'.errno = EINTR) →
      balance demo1 script = some r → r.exited = false)) ∧
    balance demo1 [waitEintr, waitFailure]
      = some ⟨demo1, [Effect.log LogLevel.err "epoll failure"], true⟩ ∧
    balance demo1 [waitBackendClosed, waitEintr]
      = some ⟨tornDown demo1 5 6 0, [Effect.recv 6, Effect.closeFd 5, Effect.closeFd 6],
          false⟩ :=
  ⟨wait_outcomes 3 demoHosts 2 demo1 demo1_reachable waitEintr [waitFailure], rfl, rfl⟩

end LoadBalancer
